import Mathlib

/-!
# Verification of the slang compiler core

Shallow embedding of the slang compiler (C sources under `src/`) in Lean 4,
with theorems settling the frozen claims about its specification.

The embedding covers:
* the structural type system (`type_system.c`): `typeIsCompatibleWith`,
  `typeInfer`;
* the on-demand lexer (`lexer.c`, the `scan_token` family):
  `scanToken`, `lexerNextToken`, `lexerPeekToken`;
* the token-level parser (`parser.c`, the `parser_parse_*` family):
  `parserParseFunction` and its sub-parsers;
* the code generator (`codegen.c`): label allocation, parameter
  marshaling, statement/expression emission;
* the call-resolution rule of the type checker, which is declared in
  `type_checker.h` but has no definition in the sources, modelled from the
  specification.

Machine integers are modelled as `Nat`/`Int` (no overflow is exercised by
any claim), C strings as `String`/`List Char`, nullable pointers as
`Option`, and `double` values produced by `atof` on digit strings as exact
rationals.
-/

namespace Slang

/-! ## Decimal rendering (model of `sprintf "%zu"`) -/

/-- One decimal digit as a character.  Only arguments `< 10` ever occur. -/
def digitChar : Nat → Char
  | 0 => '0' | 1 => '1' | 2 => '2' | 3 => '3' | 4 => '4'
  | 5 => '5' | 6 => '6' | 7 => '7' | 8 => '8' | _ => '9'

/-- Big-endian decimal digits of `n`, with explicit fuel. -/
def decDigits : Nat → Nat → List Char
  | 0, _ => []
  | fuel + 1, n =>
    if n < 10 then [digitChar n]
    else decDigits fuel (n / 10) ++ [digitChar (n % 10)]

/-- Decimal rendering of a `size_t`, as printed by `sprintf "%zu"`. -/
def decRepr (n : Nat) : String := ⟨decDigits (n + 1) n⟩

/-- Value of a big-endian digit string, inverse of `decDigits`. -/
def digitsVal (ds : List Char) : Nat :=
  ds.foldl (fun a c => 10 * a + (c.toNat - 48)) 0

/-! ## Type kinds and types (`type_system.h`, `type_system.c`)

`TypeKind` is the union of the kind enumerations appearing in the sources
(`include/type_system.h` spells the scalars `TYPE_INT`/`TYPE_BOOL`,
`type_system.c` uses `TYPE_INTEGER`/`TYPE_BOOLEAN`; the set of kinds is the
header's).  `Ty` is the tagged union `struct Type`: each kind's payload is
the corresponding member of the `data` union.  The `size`/`is_mutable`
bookkeeping fields are never read by any embedded operation and are
omitted. -/

inductive TypeKind where
  | unit | integer | float | boolean | string | char | void
  | array | tuple | vector | matrix | tensor | quaternion | complex
  | function | pointer | named
  deriving DecidableEq, Repr

inductive Ty where
  | unit : Ty
  | integer : Ty
  | float : Ty
  | boolean : Ty
  | string : Ty
  | char : Ty
  | void : Ty
  | array (elementType : Ty) : Ty
  | tuple (types : List Ty) : Ty
  | vector (dimension : Nat) (elementType : Ty) : Ty
  | matrix (rows columns : Nat) (elementType : Ty) : Ty
  | tensor (dimensions : List Nat) (elementType : Ty) : Ty
  | quaternion (elementType : Ty) : Ty
  | complex (elementType : Ty) : Ty
  | function (parameterTypes : List Ty) (returnType : Ty) : Ty
  | pointer (innerType : Ty) : Ty
  | named (name : String) : Ty

/-- The `kind` discriminant of a type. -/
def Ty.kind : Ty → TypeKind
  | .unit => .unit
  | .integer => .integer
  | .float => .float
  | .boolean => .boolean
  | .string => .string
  | .char => .char
  | .void => .void
  | .array _ => .array
  | .tuple _ => .tuple
  | .vector _ _ => .vector
  | .matrix _ _ _ => .matrix
  | .tensor _ _ => .tensor
  | .quaternion _ => .quaternion
  | .complex _ => .complex
  | .function _ _ => .function
  | .pointer _ => .pointer
  | .named _ => .named

mutual

/-- `type_is_compatible_with` (`type_system.c:172-238`).  A kind mismatch is
immediately incompatible; pairs of equal kind are dispatched by the switch,
whose `default` arm (reached by `TYPE_UNIT`, `TYPE_CHAR`, `TYPE_VOID`,
`TYPE_POINTER`, among others) returns `false`.  The catch-all pattern below
covers both the kind-mismatch early return and that `default` arm. -/
def typeIsCompatibleWith : Ty → Ty → Bool
  | .integer, .integer => true
  | .float, .float => true
  | .boolean, .boolean => true
  | .string, .string => true
  | .array e1, .array e2 => typeIsCompatibleWith e1 e2
  | .tuple ts1, .tuple ts2 =>
      ts1.length == ts2.length && typeListCompatible ts1 ts2
  | .vector d1 e1, .vector d2 e2 =>
      d1 == d2 && typeIsCompatibleWith e1 e2
  | .matrix r1 c1 e1, .matrix r2 c2 e2 =>
      r1 == r2 && c1 == c2 && typeIsCompatibleWith e1 e2
  | .tensor ds1 e1, .tensor ds2 e2 =>
      ds1 == ds2 && typeIsCompatibleWith e1 e2
  | .quaternion e1, .quaternion e2 => typeIsCompatibleWith e1 e2
  | .complex e1, .complex e2 => typeIsCompatibleWith e1 e2
  | .function ps1 r1, .function ps2 r2 =>
      ps1.length == ps2.length && typeIsCompatibleWith r1 r2 &&
        typeListCompatible ps1 ps2
  | .named n1, .named n2 => n1 == n2
  | _, _ => false

/-- The element-wise loops of `type_is_compatible_with` over tuple member
and function parameter arrays (the counts are checked before the loop
runs, so the lists have equal length whenever this is consulted). -/
def typeListCompatible : List Ty → List Ty → Bool
  | [], _ => true
  | _ :: _, [] => true
  | t1 :: ts1, t2 :: ts2 =>
      typeIsCompatibleWith t1 t2 && typeListCompatible ts1 ts2

end

/-! ## Tokens and AST nodes used by `type_infer` -/

/-- The token-type enumeration.  The sources contain several overlapping
enumerations (`lexer.c`'s scanner produces one set, `include/lexer.h`
declares another); this inductive is their union restricted to the
constructors the embedded code mentions. -/
inductive TokenType where
  | identifier | number | string | error | eof
  | leftParen | rightParen | leftBrace | rightBrace
  | leftBracket | rightBracket
  | semicolon | comma | dot | colon | arrow
  | minus | plus | slash | star | percent
  | bang | bangEqual | equal | equalEqual
  | less | lessEqual | greater | greaterEqual
  | eq | neq | lt | gt | le | ge
  | andKw | classKw | elseKw | falseKw | forKw | functionKw | ifKw | inKw
  | matchKw | nullKw | orKw | printKw | returnKw | superKw | thisKw
  | trueKw | typeKw | varKw | whileKw
  | letKw | breakKw | continueKw | structKw | implKw | traitKw
  | useKw | pubKw | privKw
  | priority
  deriving DecidableEq, Repr

/-- Literal payloads (`literal.type` discriminant together with the value
union).  A float literal is carried as the 64 bit pattern the code
generator reinterprets with `*(int64_t*)&`. -/
inductive LitValue where
  | integer (value : Int)
  | float (bits : Int)
  | string (value : String)
  | boolean (value : Bool)
  | null
  deriving DecidableEq, Repr

/-- The `ASTNode` tagged union as used by `type_system.c` and `codegen.c`
(`node->type` plus the `as` union).  Nullable child pointers are `Option`;
`Vector`-typed members that the code checks for `NULL` before iterating
are `Option (List _)`.  The `identifier` payload carries the fields the
code generator reads (`offset`, `is_local`, `name`); the `binary` payload
carries the inferred-kind annotation consulted by `codegen_emit_binary`. -/
inductive AstNode where
  | program (declarations : Option (List AstNode))
  | functionDecl (name : Option String) (localSize : Nat)
      (parameters : Option (List (Option AstNode))) (body : Option AstNode)
  | block (statements : Option (List (Option AstNode)))
  | ifStmt (condition thenBranch elseBranch : Option AstNode)
  | whileStmt (condition body : Option AstNode)
  | returnStmt (value : Option AstNode)
  | literal (lit : LitValue)
  | binary (op : TokenType) (binTy : TypeKind) (left right : Option AstNode)
  | unary (op : TokenType) (operand : Option AstNode)
  | call (callee : Option AstNode) (arguments : Option (List (Option AstNode)))
  | identifier (name : String) (offset : Nat) (isLocal : Bool)

/-- `type_infer` (`type_system.c:409-503`).  A `NULL` node or a failed
inference is `none`.  Only literal, binary and unary nodes are handled;
every other node kind falls to the `default` arm and yields `NULL`. -/
def typeInfer : Option AstNode → Option Ty
  | none => none
  | some (.literal l) =>
    match l with
    | .integer _ => some .integer
    | .float _ => some .float
    | .string _ => some .string
    | .boolean _ => some .boolean
    | .null => some .void
  | some (.binary op _ left right) =>
    match typeInfer left, typeInfer right with
    | some leftType, some rightType =>
      match op with
      | .plus | .minus | .star | .slash =>
        if leftType.kind = .integer ∧ rightType.kind = .integer then
          some leftType
        else if (leftType.kind = .float ∨ leftType.kind = .integer) ∧
            (rightType.kind = .float ∨ rightType.kind = .integer) then
          some rightType
        else none
      | .eq | .neq | .lt | .gt | .le | .ge =>
        if typeIsCompatibleWith leftType rightType then some .boolean
        else none
      | _ => none
    | _, _ => none
  | some (.unary op operand) =>
    match typeInfer operand with
    | some operandType =>
      match op with
      | .minus =>
        if operandType.kind = .integer ∨ operandType.kind = .float then
          some operandType
        else none
      | .bang =>
        if operandType.kind = .boolean then some .boolean else none
      | _ => none
    | none => none
  | some _ => none

/-! ## The on-demand lexer (`lexer.c:11-269`, the `scan_token` family)

The lexer state is the `Lexer` struct: the source text, the token start
index, the scan cursor and the line counter.  C reads one position past
the last character (the NUL terminator); `chAt` models this by returning
`'\x00'` out of range.  The scanning loops are parameterised by fuel; the
callers pass `source.length + 1`, which exceeds the number of iterations
of every loop (each iteration advances the cursor, which never leaves
`[0, length]`). -/

/-- The token value union.  The scanner fills `number` for numeric tokens
and `string` for string tokens; all other tokens leave it unset. -/
inductive TokenValue where
  | none
  | num (number : ℚ)
  | str (string : String)
  deriving DecidableEq, Repr

/-- A token of the value-returning scanner: `type`, the lexeme slice (for
`error_token`, the message), the line number, and the value union. -/
structure Token where
  type : TokenType
  lexeme : String
  line : Nat
  value : TokenValue
  deriving DecidableEq, Repr

structure LexState where
  source : List Char
  lstart : Nat
  current : Nat
  line : Nat
  deriving DecidableEq, Repr

/-- Character at index `i`; the NUL terminator past the end. -/
def chAt (src : List Char) (i : Nat) : Char := src.getD i (Char.ofNat 0)

/-- `peek_next`: NUL when at end, otherwise the character after the cursor. -/
def chAtNext (src : List Char) (i : Nat) : Char :=
  if src.length ≤ i then Char.ofNat 0 else chAt src (i + 1)

/-- The line-comment loop of `skip_whitespace`: advance until a newline or
end of input. -/
def commentAux : Nat → List Char → Nat → Nat
  | 0, _, i => i
  | fuel + 1, src, i =>
    if chAt src i ≠ '\n' ∧ i < src.length then commentAux fuel src (i + 1)
    else i

/-- `skip_whitespace` as a positional loop: returns the cursor after the
skipped region and the number of newlines crossed. -/
def skipWsAux : Nat → List Char → Nat → Nat × Nat
  | 0, _, i => (i, 0)
  | fuel + 1, src, i =>
    let c := chAt src i
    if c = ' ' ∨ c = '\r' ∨ c = '\t' then skipWsAux fuel src (i + 1)
    else if c = '\n' then
      let r := skipWsAux fuel src (i + 1)
      (r.1, r.2 + 1)
    else if c = '/' then
      if chAtNext src i = '/' then
        skipWsAux fuel src (commentAux (src.length + 1) src i)
      else (i, 0)
    else (i, 0)

/-- The scanning loop of `string`: advance until a closing quote or end of
input, counting crossed newlines. -/
def stringAux : Nat → List Char → Nat → Nat × Nat
  | 0, _, i => (i, 0)
  | fuel + 1, src, i =>
    if chAt src i ≠ '"' ∧ i < src.length then
      let d0 : Nat := if chAt src i = '\n' then 1 else 0
      let r := stringAux fuel src (i + 1)
      (r.1, d0 + r.2)
    else (i, 0)

/-- The digit loops of `number`: advance while the cursor is on a digit. -/
def digitsAux : Nat → List Char → Nat → Nat
  | 0, _, i => i
  | fuel + 1, src, i =>
    if (chAt src i).isDigit then digitsAux fuel src (i + 1) else i

/-- The loop of `identifier`: advance while on an alphanumeric or `_`. -/
def identAux : Nat → List Char → Nat → Nat
  | 0, _, i => i
  | fuel + 1, src, i =>
    if (chAt src i).isAlphanum ∨ chAt src i = '_' then
      identAux fuel src (i + 1)
    else i

def strlen (l : LexState) : Nat := l.source.length

/-- `skip_whitespace`, updating cursor and line counter. -/
def skipWhitespace (l : LexState) : LexState :=
  let r := skipWsAux (strlen l + 1) l.source l.current
  { l with current := r.1, line := l.line + r.2 }

/-- The lexeme slice `[start, current)` of the source. -/
def lexemeChars (l : LexState) : List Char :=
  (l.source.drop l.lstart).take (l.current - l.lstart)

/-- `make_token`: type, lexeme slice and current line. -/
def makeToken (l : LexState) (t : TokenType) : Token :=
  { type := t, lexeme := ⟨lexemeChars l⟩, line := l.line, value := .none }

/-- `error_token`: an error token carrying the message and current line. -/
def errorToken (l : LexState) (message : String) : Token :=
  { type := .error, lexeme := message, line := l.line, value := .none }

/-- An operator/EOF token: `Token token = {0}` with only `type` set, so
its lexeme is empty and its line number is `0`. -/
def simpleToken (t : TokenType) : Token :=
  { type := t, lexeme := "", line := 0, value := .none }

/-- `check_keyword`: the lexeme has the expected total length and its tail
from `s` matches `rest`. -/
def checkKeyword (lex : List Char) (s : Nat) (rest : List Char)
    (t : TokenType) : TokenType :=
  if lex.length = s + rest.length ∧ lex.drop s = rest then t
  else .identifier

/-- `identifier_type`: the keyword trie over the scanned lexeme. -/
def identifierType (lex : List Char) : TokenType :=
  match lex with
  | 'a' :: _ => checkKeyword lex 1 ['n', 'd'] .andKw
  | 'c' :: _ => checkKeyword lex 1 ['l', 'a', 's', 's'] .classKw
  | 'e' :: _ => checkKeyword lex 1 ['l', 's', 'e'] .elseKw
  | 'f' :: 'a' :: _ => checkKeyword lex 2 ['l', 's', 'e'] .falseKw
  | 'f' :: 'o' :: _ => checkKeyword lex 2 ['r'] .forKw
  | 'f' :: 'n' :: _ => checkKeyword lex 2 [] .functionKw
  | 'i' :: 'f' :: _ => checkKeyword lex 2 [] .ifKw
  | 'i' :: 'n' :: _ => checkKeyword lex 2 [] .inKw
  | 'm' :: _ => checkKeyword lex 1 ['a', 't', 'c', 'h'] .matchKw
  | 'n' :: _ => checkKeyword lex 1 ['u', 'l', 'l'] .nullKw
  | 'o' :: _ => checkKeyword lex 1 ['r'] .orKw
  | 'p' :: _ => checkKeyword lex 1 ['r', 'i', 'n', 't'] .printKw
  | 'r' :: _ => checkKeyword lex 1 ['e', 't', 'u', 'r', 'n'] .returnKw
  | 's' :: _ => checkKeyword lex 1 ['u', 'p', 'e', 'r'] .superKw
  | 't' :: 'h' :: _ => checkKeyword lex 2 ['i', 's'] .thisKw
  | 't' :: 'r' :: _ => checkKeyword lex 2 ['u', 'e'] .trueKw
  | 't' :: 'y' :: _ => checkKeyword lex 2 ['p', 'e'] .typeKw
  | 'v' :: _ => checkKeyword lex 1 ['a', 'r'] .varKw
  | 'w' :: _ => checkKeyword lex 1 ['h', 'i', 'l', 'e'] .whileKw
  | _ => .identifier

/-- Exact value of `atof` on the digit-and-dot lexemes `number` produces:
the integer part plus the fractional digits scaled down.  (The scanner
never passes a sign or an exponent.) -/
def atofModel (cs : List Char) : ℚ :=
  let ip := cs.takeWhile (·.isDigit)
  let rest := cs.drop ip.length
  let fp := match rest with
    | '.' :: t => t.takeWhile (·.isDigit)
    | _ => []
  (digitsVal ip : ℚ) + (digitsVal fp : ℚ) / (10 : ℚ) ^ fp.length

/-- `identifier` (`lexer.c:194-198`): consume the identifier tail, then
classify the lexeme. -/
def identifierScan (l : LexState) : Token × LexState :=
  let l := { l with current := identAux (strlen l + 1) l.source l.current }
  (makeToken l (identifierType (lexemeChars l)), l)

/-- `number` (`lexer.c:123-141`): integer digits, then an optional
fraction when a dot is followed by a digit; the value is `atof` of the
lexeme. -/
def numberScan (l : LexState) : Token × LexState :=
  let l := { l with current := digitsAux (strlen l + 1) l.source l.current }
  let l :=
    if chAt l.source l.current = '.' ∧ (chAtNext l.source l.current).isDigit
    then { l with
            current := digitsAux (strlen l + 1) l.source (l.current + 1) }
    else l
  ({ makeToken l .number with value := .num (atofModel (lexemeChars l)) }, l)

/-- `string` (`lexer.c:99-121`), entered after the opening quote was
consumed: scan to the closing quote; at end of input, an error token;
otherwise consume the quote and carry the unquoted contents. -/
def stringScan (l : LexState) : Token × LexState :=
  let r := stringAux (strlen l + 1) l.source l.current
  let l := { l with current := r.1, line := l.line + r.2 }
  if strlen l ≤ l.current then (errorToken l "Unterminated string.", l)
  else
    let l := { l with current := l.current + 1 }
    let len := l.current - l.lstart - 2
    ({ makeToken l .string with
        value := .str ⟨(l.source.drop (l.lstart + 1)).take len⟩ }, l)

/-- `match` (`lexer.c:39-44`): consume the expected character if present. -/
def matchCh (l : LexState) (expected : Char) : Bool × LexState :=
  if strlen l ≤ l.current then (false, l)
  else if chAt l.source l.current ≠ expected then (false, l)
  else (true, { l with current := l.current + 1 })

/-- The body of `scan_token` after whitespace was skipped and `start` was
reset: EOF check, first-character dispatch, operator switch. -/
def scanTokenBody (l : LexState) : Token × LexState :=
  if strlen l ≤ l.current then (simpleToken .eof, l)
  else
    let c := chAt l.source l.current
    let l := { l with current := l.current + 1 }
    if c.isAlpha ∨ c = '_' then identifierScan l
    else if c.isDigit then numberScan l
    else match c with
      | '(' => (simpleToken .leftParen, l)
      | ')' => (simpleToken .rightParen, l)
      | '{' => (simpleToken .leftBrace, l)
      | '}' => (simpleToken .rightBrace, l)
      | '[' => (simpleToken .leftBracket, l)
      | ']' => (simpleToken .rightBracket, l)
      | ';' => (simpleToken .semicolon, l)
      | ',' => (simpleToken .comma, l)
      | '.' => (simpleToken .dot, l)
      | '-' => (simpleToken .minus, l)
      | '+' => (simpleToken .plus, l)
      | '/' => (simpleToken .slash, l)
      | '*' => (simpleToken .star, l)
      | '!' =>
        let r := matchCh l '='
        (simpleToken (if r.1 then .bangEqual else .bang), r.2)
      | '=' =>
        let r := matchCh l '='
        (simpleToken (if r.1 then .equalEqual else .equal), r.2)
      | '<' =>
        let r := matchCh l '='
        (simpleToken (if r.1 then .lessEqual else .less), r.2)
      | '>' =>
        let r := matchCh l '='
        (simpleToken (if r.1 then .greaterEqual else .greater), r.2)
      | '"' => stringScan l
      | _ => (simpleToken .error, l)

/-- `scan_token` (`lexer.c:200-241`). -/
def scanToken (l : LexState) : Token × LexState :=
  let l := skipWhitespace l
  scanTokenBody { l with lstart := l.current }

/-- `lexer_next_token` (`lexer.c:256-258`). -/
def lexerNextToken (l : LexState) : Token × LexState := scanToken l

/-- `lexer_peek_token` (`lexer.c:260-265`): scan, then restore only the
`current` cursor; `start` and `line` keep the values the scan left. -/
def lexerPeekToken (l : LexState) : Token × LexState :=
  let r := scanToken l
  (r.1, { r.2 with current := l.current })

/-- `lexer_init` (`lexer.c:243-250`). -/
def lexerInit (source : String) : LexState :=
  { source := source.data, lstart := 0, current := 0, line := 1 }

/-! ## The parser (`parser.c:282-660`, the `parser_parse_*` family)

The parser consumes its lexer only through the `Token`-valued
`lexer_next_token` / `lexer_peek_token` interface: successive tokens, with
EOF repeated past the end of input.  That interface is embedded as the
fixed token sequence `toks` (the lexer's contents, never modified by the
parser) together with a cursor `pos`; `next` reads the token under the
cursor and advances it, `peek` reads without advancing. -/

def eofTok : Token :=
  { type := .eof, lexeme := "", line := 0, value := .none }

/-- The token under the cursor (EOF past the end). -/
def tokAt (toks : List Token) (pos : Nat) : Token := toks.getD pos eofTok

/-- Reading `token.value.string`.  (The C code reads this union member
even for tokens the scanner produced without setting it — an
uninitialized read; the model yields the empty string there.) -/
def tokenStr (t : Token) : String :=
  match t.value with
  | .str s => s
  | _ => ""

/-- Reading `token.value.number`. -/
def tokenNum (t : Token) : ℚ :=
  match t.value with
  | .num q => q
  | _ => 0

/-- The C cast `(int)` applied to a `double`: truncation toward zero. -/
def cIntOfDouble (q : ℚ) : Int := if 0 ≤ q then ⌊q⌋ else -⌊-q⌋

/-- The parse error produced by `slang_error_new(SLANG_ERROR_SYNTAX, msg)`. -/
structure ParseErr where
  message : String
  deriving DecidableEq, Repr

/-- The AST nodes built by the `create_*_node` constructors the parser
uses (the `data`-union variant of `ASTNode` in `ast.c`). -/
inductive PNode where
  | letStatement (name : String) (tyAnn : Option Ty) (initializer : PNode)
  | expressionStatement (value : Option PNode)
  | blockStatement (statements : List PNode)
  | functionCall (name : String) (arguments : List PNode)
  | variableReference (name : String)
  | integerLiteral (value : Int)
  | stringLiteral (value : String)
  | booleanLiteral (value : Bool)

/-- `struct Parameter`: a parameter name with its type annotation. -/
structure Param where
  name : String
  type : Ty

/-- `struct Function` as filled in by `parser_parse_function` (the C
struct is named `Function`): name, parameters, return type, priority and
body. -/
structure Func where
  name : String
  parameters : List Param
  returnType : Ty
  priority : Int
  body : PNode

/-- `parser_expect` (`parser.c:511-517`). -/
def parserExpect (toks : List Token) (pos : Nat) (expected : TokenType) :
    Except ParseErr Nat :=
  if (tokAt toks pos).type = expected then .ok (pos + 1)
  else .error ⟨"Unexpected token"⟩

/-- `parser_parse_identifier` (`parser.c:464-471`). -/
def parserParseIdentifier (toks : List Token) (pos : Nat) :
    Except ParseErr (String × Nat) :=
  if (tokAt toks pos).type = .identifier then
    .ok (tokenStr (tokAt toks pos), pos + 1)
  else .error ⟨"Expected identifier"⟩

/-- `parser_parse_integer` (`parser.c:473-480`): `(int)` of the number
token's `double` value. -/
def parserParseInteger (toks : List Token) (pos : Nat) :
    Except ParseErr (Int × Nat) :=
  if (tokAt toks pos).type = .number then
    .ok (cIntOfDouble (tokenNum (tokAt toks pos)), pos + 1)
  else .error ⟨"Expected number"⟩

mutual

/-- `parser_parse_type` (`parser.c:382-438`): named types, `[elem]`
arrays, and parenthesised tuples.  The fuel bounds the recursion depth
and loop length; exhaustion reports a syntax error, so any successful run
is a genuine, fuel-independent parse. -/
def parserParseType :
    Nat → List Token → Nat → Except ParseErr (Ty × Nat)
  | 0, _, _ => .error ⟨"Expected type"⟩
  | fuel + 1, toks, pos =>
    let t := tokAt toks pos
    if t.type = .identifier then .ok (.named (tokenStr t), pos + 1)
    else if t.type = .leftBracket then
      match parserParseType fuel toks (pos + 1) with
      | .error e => .error e
      | .ok (elemTy, pos) =>
        match parserExpect toks pos .rightBracket with
        | .error e => .error e
        | .ok pos => .ok (.array elemTy, pos)
    else if t.type = .leftParen then
      let pos := pos + 1
      if (tokAt toks pos).type = .rightParen then
        match parserExpect toks pos .rightParen with
        | .error e => .error e
        | .ok pos => .ok (.tuple [], pos)
      else
        match parserParseTupleLoop fuel toks pos [] with
        | .error e => .error e
        | .ok (types, pos) =>
          match parserExpect toks pos .rightParen with
          | .error e => .error e
          | .ok pos => .ok (.tuple types, pos)
    else .error ⟨"Expected type"⟩

/-- The element loop of the tuple case of `parser_parse_type`. -/
def parserParseTupleLoop :
    Nat → List Token → Nat → List Ty → Except ParseErr (List Ty × Nat)
  | 0, _, _, _ => .error ⟨"Expected type"⟩
  | fuel + 1, toks, pos, acc =>
    match parserParseType fuel toks pos with
    | .error e => .error e
    | .ok (elemTy, pos) =>
      if (tokAt toks pos).type = .rightParen then .ok (acc ++ [elemTy], pos)
      else
        match parserExpect toks pos .comma with
        | .error e => .error e
        | .ok pos => parserParseTupleLoop fuel toks pos (acc ++ [elemTy])

end

mutual

/-- `parser_parse_expression` (`parser.c:588-660`): identifiers (plain or
as call heads), number, string and boolean literals. -/
def parserParseExpression :
    Nat → List Token → Nat → Except ParseErr (PNode × Nat)
  | 0, _, _ => .error ⟨"Expected expression"⟩
  | fuel + 1, toks, pos =>
    let t := tokAt toks pos
    if t.type = .identifier then
      let name := tokenStr t
      let pos := pos + 1
      if (tokAt toks pos).type = .leftParen then
        let pos := pos + 1
        if (tokAt toks pos).type = .rightParen then
          .ok (.functionCall name [], pos + 1)
        else
          match parserParseArgsLoop fuel toks pos [] with
          | .error e => .error e
          | .ok (args, pos) => .ok (.functionCall name args, pos + 1)
      else .ok (.variableReference name, pos)
    else if t.type = .number then
      .ok (.integerLiteral (cIntOfDouble (tokenNum t)), pos + 1)
    else if t.type = .string then
      .ok (.stringLiteral (tokenStr t), pos + 1)
    else if t.type = .trueKw ∨ t.type = .falseKw then
      .ok (.booleanLiteral (t.type == .trueKw), pos + 1)
    else .error ⟨"Expected expression"⟩

/-- The argument loop of the call case of `parser_parse_expression`. -/
def parserParseArgsLoop :
    Nat → List Token → Nat → List PNode →
      Except ParseErr (List PNode × Nat)
  | 0, _, _, _ => .error ⟨"Expected expression"⟩
  | fuel + 1, toks, pos, acc =>
    match parserParseExpression fuel toks pos with
    | .error e => .error e
    | .ok (arg, pos) =>
      if (tokAt toks pos).type = .rightParen then .ok (acc ++ [arg], pos)
      else
        match parserExpect toks pos .comma with
        | .error e => .error e
        | .ok pos => parserParseArgsLoop fuel toks pos (acc ++ [arg])

end

/-- `parser_parse_statement` (`parser.c:519-586`): `var` declarations
(with optional `:` type annotation), `return` (whose optional value is
wrapped in an expression statement and whose semicolon is not consumed),
and expression statements followed by `;`. -/
def parserParseStatement (fuel : Nat) (toks : List Token) (pos : Nat) :
    Except ParseErr (PNode × Nat) :=
  let t := tokAt toks pos
  if t.type = .varKw then
    let pos := pos + 1
    match parserParseIdentifier toks pos with
    | .error e => .error e
    | .ok (name, pos) =>
      match
        (if (tokAt toks pos).type = .colon then
          match parserParseType fuel toks (pos + 1) with
          | .error e => .error e
          | .ok (ty, pos) => .ok (some ty, pos)
        else .ok (none, pos) :
          Except ParseErr (Option Ty × Nat)) with
      | .error e => .error e
      | .ok (tyAnn, pos) =>
        match parserExpect toks pos .equal with
        | .error e => .error e
        | .ok pos =>
          match parserParseExpression fuel toks pos with
          | .error e => .error e
          | .ok (initializer, pos) =>
            .ok (.letStatement name tyAnn initializer, pos)
  else if t.type = .returnKw then
    let pos := pos + 1
    if (tokAt toks pos).type = .semicolon then
      .ok (.expressionStatement none, pos)
    else
      match parserParseExpression fuel toks pos with
      | .error e => .error e
      | .ok (v, pos) => .ok (.expressionStatement (some v), pos)
  else
    match parserParseExpression fuel toks pos with
    | .error e => .error e
    | .ok (e, pos) =>
      match parserExpect toks pos .semicolon with
      | .error e => .error e
      | .ok pos => .ok (e, pos)

/-- The statement loop of `parser_parse_block` (`parser.c:488-505`). -/
def parserParseBlockLoop :
    Nat → List Token → Nat → List PNode → Except ParseErr (PNode × Nat)
  | 0, _, _, _ => .error ⟨"Expected statement"⟩
  | fuel + 1, toks, pos, acc =>
    if (tokAt toks pos).type = .rightBrace then
      .ok (.blockStatement acc, pos + 1)
    else
      match parserParseStatement fuel toks pos with
      | .error e => .error e
      | .ok (s, pos) => parserParseBlockLoop fuel toks pos (acc ++ [s])

/-- `parser_parse_block` (`parser.c:482-509`). -/
def parserParseBlock (fuel : Nat) (toks : List Token) (pos : Nat) :
    Except ParseErr (PNode × Nat) :=
  if (tokAt toks pos).type = .leftBrace then
    parserParseBlockLoop fuel toks (pos + 1) []
  else .error ⟨"Expected left brace"⟩

/-- The parameter loop of `parser_parse_function` (`parser.c:304-338`). -/
def parserParseParamsLoop :
    Nat → List Token → Nat → List Param → Except ParseErr (List Param × Nat)
  | 0, _, _, _ => .error ⟨"Expected identifier"⟩
  | fuel + 1, toks, pos, acc =>
    match parserParseIdentifier toks pos with
    | .error e => .error e
    | .ok (pname, pos) =>
      match parserExpect toks pos .colon with
      | .error e => .error e
      | .ok pos =>
        match parserParseType fuel toks pos with
        | .error e => .error e
        | .ok (pty, pos) =>
          if (tokAt toks pos).type = .rightParen then
            .ok (acc ++ [⟨pname, pty⟩], pos)
          else
            match parserExpect toks pos .comma with
            | .error e => .error e
            | .ok pos =>
              parserParseParamsLoop fuel toks pos (acc ++ [⟨pname, pty⟩])

/-- The priority clause of `parser_parse_function` (`parser.c:358-369`):
when the peeked token is `TOKEN_PRIORITY` the keyword is consumed and an
integer is parsed into the priority field; otherwise the priority is set
to `0` and nothing is consumed. -/
def parserParsePriority (toks : List Token) (pos : Nat) :
    Except ParseErr (Int × Nat) :=
  if (tokAt toks pos).type = .priority then
    parserParseInteger toks (pos + 1)
  else .ok (0, pos)

/-- `parser_parse_function` (`parser.c:282-380`). -/
def parserParseFunction (fuel : Nat) (toks : List Token) (pos : Nat) :
    Except ParseErr (Func × Nat) :=
  if (tokAt toks pos).type ≠ .functionKw then
    .error ⟨"Expected 'fn' keyword"⟩
  else
    match parserParseIdentifier toks (pos + 1) with
    | .error e => .error e
    | .ok (name, pos) =>
      match parserExpect toks pos .leftParen with
      | .error e => .error e
      | .ok pos =>
        match
          (if (tokAt toks pos).type = .rightParen then .ok ([], pos)
           else parserParseParamsLoop fuel toks pos [] :
            Except ParseErr (List Param × Nat)) with
        | .error e => .error e
        | .ok (params, pos) =>
          match parserExpect toks pos .rightParen with
          | .error e => .error e
          | .ok pos =>
            match parserExpect toks pos .arrow with
            | .error e => .error e
            | .ok pos =>
              match parserParseType fuel toks pos with
              | .error e => .error e
              | .ok (retTy, pos) =>
                match parserParsePriority toks pos with
                | .error e => .error e
                | .ok (prio, pos) =>
                  match parserParseBlock fuel toks pos with
                  | .error e => .error e
                  | .ok (body, pos) =>
                    .ok ({ name := name, parameters := params,
                           returnType := retTy, priority := prio,
                           body := body }, pos)

/-- Every number token the scanner produces carries a non-negative value
(digit strings only); this is the lexer-side invariant the parser relies
on for priorities. -/
def numsNonneg (toks : List Token) : Prop :=
  ∀ t ∈ toks, t.type = .number → 0 ≤ tokenNum t

/-- Projection of a parse outcome to the parsed function, for comparing
runs on different token streams. -/
def parsedFuncOf (r : Except ParseErr (Func × Nat)) : Option Func :=
  match r with
  | .ok p => some p.1
  | _ => none

/-- A value-less token of the given type. -/
def tokOf (t : TokenType) : Token :=
  { type := t, lexeme := "", line := 0, value := .none }

/-- An identifier token carrying its text. -/
def identTokOf (s : String) : Token :=
  { type := .identifier, lexeme := s, line := 1, value := .str s }

/-- A number token carrying its value. -/
def numTokOf (q : ℚ) : Token :=
  { type := .number, lexeme := "", line := 1, value := .num q }

/-- Token stream of `fn f() -> int` with no priority clause and an empty
body. -/
def demoToksNoPriority : List Token :=
  [tokOf .functionKw, identTokOf "f", tokOf .leftParen, tokOf .rightParen,
   tokOf .arrow, identTokOf "int", tokOf .leftBrace, tokOf .rightBrace]

/-- The same declaration with an explicit `priority 0` clause. -/
def demoToksPriorityZero : List Token :=
  [tokOf .functionKw, identTokOf "f", tokOf .leftParen, tokOf .rightParen,
   tokOf .arrow, identTokOf "int", tokOf .priority, numTokOf 0,
   tokOf .leftBrace, tokOf .rightBrace]

/-- The function record both demo streams parse to. -/
def demoFunc : Func :=
  { name := "f", parameters := [], returnType := .named "int",
    priority := 0, body := .blockStatement [] }

/-! ## The code generator (`codegen.c`)

`CGState` is the `CodeGenContext` together with the text already written
to the output file (`out`, one entry per `fprintf` call).  The ghost
field `allocated` records, in order, every label `codegen_new_label`
returned; it lets the label-uniqueness claim be stated about the
allocation events themselves. -/

structure CGState where
  out : List String
  stringLits : List String
  globals : List String
  labelCounter : Nat
  allocated : List String

/-- The name `sprintf(label, "L%zu", counter)` produces. -/
def labelName (n : Nat) : String := "L" ++ decRepr n

/-- `codegen_new_label` (`codegen.c:66-71`): render the counter and
post-increment it. -/
def codegenNewLabel (st : CGState) : String × CGState :=
  (labelName st.labelCounter,
   { st with labelCounter := st.labelCounter + 1,
             allocated := st.allocated ++ [labelName st.labelCounter] })

def emitLine (st : CGState) (s : String) : CGState :=
  { st with out := st.out ++ [s] }

def emitLines (st : CGState) (ls : List String) : CGState :=
  { st with out := st.out ++ ls }

/-- `codegen_create` (`codegen.c:7-31`): empty pools, counter `0`. -/
def codegenCreate : CGState :=
  { out := [], stringLits := [], globals := [], labelCounter := 0,
    allocated := [] }

/-- Rendering of an `int64_t` by `printf "%ld"`. -/
def intRepr (z : Int) : String :=
  if z < 0 then "-" ++ decRepr z.natAbs else decRepr z.natAbs

/-- The System V argument registers, in order (`codegen.c:124`). -/
def argRegs : List String := ["rdi", "rsi", "rdx", "rcx", "r8", "r9"]

/-- The marshaling emitted for the parameter at index `i`
(`codegen.c:114-134`): entries that are null or not identifier nodes are
skipped; the first six parameters are stored from the argument registers;
later ones are loaded from the caller's frame at
`rbp + 16 + (i-6)*8` and stored. -/
def marshalParam (i : Nat) (p : Option AstNode) : List String :=
  match p with
  | some (.identifier _ offset _) =>
    if i < 6 then
      ["    mov [rbp - " ++ decRepr offset ++ "], " ++ argRegs.getD i ""]
    else
      ["    mov rax, [rbp + " ++ decRepr (16 + (i - 6) * 8) ++ "]",
       "    mov [rbp - " ++ decRepr offset ++ "], rax"]
  | _ => []

/-- The whole parameter-marshaling loop of `codegen_emit_function`. -/
def marshalLines (params : List (Option AstNode)) : List String :=
  params.enum.flatMap (fun ip => marshalParam ip.1 ip.2)

/-- `codegen_emit_literal` (`codegen.c:269-298`). -/
def codegenEmitLiteral (lit : LitValue) (st : CGState) : CGState :=
  match lit with
  | .integer v => emitLine st ("    mov rax, " ++ intRepr v)
  | .float bits =>
    emitLines st ["    mov rax, " ++ intRepr bits, "    movq xmm0, rax"]
  | .string s =>
    let st := { st with stringLits := st.stringLits ++ [s] }
    emitLine st
      ("    lea rax, [rel str_" ++ decRepr (st.stringLits.length - 1) ++ "]")
  | .boolean b => emitLine st ("    mov rax, " ++ if b then "1" else "0")
  | .null => emitLine st "    xor rax, rax"

/-- `codegen_emit_variable` (`codegen.c:491-504`). -/
def codegenEmitVariable (name : String) (offset : Nat) (isLocal : Bool)
    (st : CGState) : CGState :=
  if isLocal then
    emitLine st ("    mov rax, [rbp - " ++ decRepr offset ++ "]")
  else emitLine st ("    mov rax, [rel " ++ name ++ "]")

mutual

/-- `codegen_emit_statement` (`codegen.c:149-236`). -/
def codegenEmitStatement (node : AstNode) (st : CGState) : CGState :=
  match node with
  | .block stmts =>
    match stmts with
    | some l => codegenEmitStmtList l st
    | none => st
  | .ifStmt cond thenBr elseBr =>
    match cond with
    | none => st
    | some c =>
      let st := codegenEmitExpression c st
      let r1 := codegenNewLabel st
      let r2 := codegenNewLabel r1.2
      let elseLabel := r1.1
      let endLabel := r2.1
      let st := r2.2
      let st := emitLine st "    cmp rax, 0"
      let st := emitLine st ("    je " ++ elseLabel)
      let st := match thenBr with
        | some t => codegenEmitStatement t st
        | none => st
      let st := emitLine st ("    jmp " ++ endLabel)
      let st := emitLine st (elseLabel ++ ":")
      let st := match elseBr with
        | some e => codegenEmitStatement e st
        | none => st
      emitLine st (endLabel ++ ":")
  | .whileStmt cond body =>
    match cond with
    | none => st
    | some c =>
      let r1 := codegenNewLabel st
      let r2 := codegenNewLabel r1.2
      let startLabel := r1.1
      let exitLabel := r2.1
      let st := r2.2
      let st := emitLine st (startLabel ++ ":")
      let st := codegenEmitExpression c st
      let st := emitLine st "    cmp rax, 0"
      let st := emitLine st ("    je " ++ exitLabel)
      let st := match body with
        | some b => codegenEmitStatement b st
        | none => st
      let st := emitLine st ("    jmp " ++ startLabel)
      emitLine st (exitLabel ++ ":")
  | .returnStmt v =>
    let st := match v with
      | some e => codegenEmitExpression e st
      | none => st
    emitLines st ["    mov rsp, rbp", "    pop rbp", "    ret"]
  | _ => codegenEmitExpression node st
termination_by 2 * sizeOf node + 1

/-- The statement loop of the `NODE_BLOCK` case (null entries skipped). -/
def codegenEmitStmtList (l : List (Option AstNode)) (st : CGState) :
    CGState :=
  match l with
  | [] => st
  | none :: rest => codegenEmitStmtList rest st
  | some s :: rest => codegenEmitStmtList rest (codegenEmitStatement s st)
termination_by 2 * sizeOf l

/-- `codegen_emit_expression` (`codegen.c:239-266`); its entry null check
is `codegenEmitExprOpt`. -/
def codegenEmitExpression (node : AstNode) (st : CGState) : CGState :=
  match node with
  | .literal lit => codegenEmitLiteral lit st
  | .binary op bty left right => codegenEmitBinary op bty left right st
  | .unary op operand => codegenEmitUnary op operand st
  | .call callee args => codegenEmitCall callee args st
  | .identifier name offset isLocal =>
    codegenEmitVariable name offset isLocal st
  | _ => st
termination_by 2 * sizeOf node

def codegenEmitExprOpt (node : Option AstNode) (st : CGState) : CGState :=
  match node with
  | some n => codegenEmitExpression n st
  | none => st
termination_by 2 * sizeOf node

/-- `codegen_emit_binary` (`codegen.c:301-444`): right operand, push,
left operand, pop, then the operator's integer or floating-point
sequence selected by the node's inferred kind. -/
def codegenEmitBinary (op : TokenType) (bty : TypeKind)
    (left right : Option AstNode) (st : CGState) : CGState :=
  let st := codegenEmitExprOpt right st
  let st := emitLine st "    push rax"
  let st := codegenEmitExprOpt left st
  let st := emitLine st "    pop rbx"
  match op with
  | .plus =>
    if bty = .float then
      emitLines st ["    movq xmm0, rax", "    movq xmm1, rbx",
        "    addsd xmm0, xmm1", "    movq rax, xmm0"]
    else emitLine st "    add rax, rbx"
  | .minus =>
    if bty = .float then
      emitLines st ["    movq xmm0, rax", "    movq xmm1, rbx",
        "    subsd xmm0, xmm1", "    movq rax, xmm0"]
    else emitLine st "    sub rax, rbx"
  | .star =>
    if bty = .float then
      emitLines st ["    movq xmm0, rax", "    movq xmm1, rbx",
        "    mulsd xmm0, xmm1", "    movq rax, xmm0"]
    else emitLine st "    imul rax, rbx"
  | .slash =>
    if bty = .float then
      emitLines st ["    movq xmm0, rax", "    movq xmm1, rbx",
        "    divsd xmm0, xmm1", "    movq rax, xmm0"]
    else emitLines st ["    cqo", "    idiv rbx"]
  | .eq =>
    if bty = .float then
      emitLines st ["    movq xmm0, rax", "    movq xmm1, rbx",
        "    comisd xmm0, xmm1", "    sete al", "    movzx rax, al"]
    else emitLines st ["    cmp rax, rbx", "    sete al", "    movzx rax, al"]
  | .neq =>
    if bty = .float then
      emitLines st ["    movq xmm0, rax", "    movq xmm1, rbx",
        "    comisd xmm0, xmm1", "    setne al", "    movzx rax, al"]
    else emitLines st ["    cmp rax, rbx", "    setne al",
      "    movzx rax, al"]
  | .lt =>
    if bty = .float then
      emitLines st ["    movq xmm0, rax", "    movq xmm1, rbx",
        "    comisd xmm0, xmm1", "    setb al", "    movzx rax, al"]
    else emitLines st ["    cmp rax, rbx", "    setl al",
      "    movzx rax, al"]
  | .gt =>
    if bty = .float then
      emitLines st ["    movq xmm0, rax", "    movq xmm1, rbx",
        "    comisd xmm0, xmm1", "    seta al", "    movzx rax, al"]
    else emitLines st ["    cmp rax, rbx", "    setg al",
      "    movzx rax, al"]
  | .le =>
    if bty = .float then
      emitLines st ["    movq xmm0, rax", "    movq xmm1, rbx",
        "    comisd xmm0, xmm1", "    setbe al", "    movzx rax, al"]
    else emitLines st ["    cmp rax, rbx", "    setle al",
      "    movzx rax, al"]
  | .ge =>
    if bty = .float then
      emitLines st ["    movq xmm0, rax", "    movq xmm1, rbx",
        "    comisd xmm0, xmm1", "    setae al", "    movzx rax, al"]
    else emitLines st ["    cmp rax, rbx", "    setge al",
      "    movzx rax, al"]
  | _ => st
termination_by 2 * (sizeOf left + sizeOf right) + 1

/-- `codegen_emit_unary` (`codegen.c:447-466`). -/
def codegenEmitUnary (op : TokenType) (operand : Option AstNode)
    (st : CGState) : CGState :=
  let st := codegenEmitExprOpt operand st
  match op with
  | .minus => emitLine st "    neg rax"
  | .bang =>
    emitLines st ["    test rax, rax", "    setz al", "    movzx rax, al"]
  | _ => st
termination_by 2 * sizeOf operand + 1

/-- `codegen_emit_call` (`codegen.c:469-488`): arguments right-to-left,
each pushed; then the callee, the indirect call, and the stack
adjustment (emitted whenever the argument vector exists, even empty). -/
def codegenEmitCall (callee : Option AstNode)
    (args : Option (List (Option AstNode))) (st : CGState) : CGState :=
  let st := match args with
    | some l => codegenEmitArgsRev l st
    | none => st
  let st := codegenEmitExprOpt callee st
  let st := emitLine st "    call rax"
  match args with
  | some l => emitLine st ("    add rsp, " ++ decRepr (l.length * 8))
  | none => st
termination_by 2 * (sizeOf callee + sizeOf args) + 1

/-- The right-to-left argument loop of `codegen_emit_call`. -/
def codegenEmitArgsRev (l : List (Option AstNode)) (st : CGState) :
    CGState :=
  match l with
  | [] => st
  | a :: rest =>
    let st := codegenEmitArgsRev rest st
    let st := codegenEmitExprOpt a st
    emitLine st "    push rax"
termination_by 2 * sizeOf l

end

/-- `codegen_emit_function` (`codegen.c:98-146`): label, prologue,
optional local-space reservation, parameter marshaling, body, epilogue.
A node that is not a function declaration or has no name emits nothing. -/
def codegenEmitFunction (node : AstNode) (st : CGState) : CGState :=
  match node with
  | .functionDecl (some nm) localSize params body =>
    let st := emitLine st ("\n" ++ nm ++ ":")
    let st := emitLine st "    push rbp"
    let st := emitLine st "    mov rbp, rsp"
    let st := if localSize > 0 then
        emitLine st ("    sub rsp, " ++ decRepr localSize)
      else st
    let st := match params with
      | some ps => emitLines st (marshalLines ps)
      | none => st
    let st := match body with
      | some b => codegenEmitStatement b st
      | none => st
    emitLines st ["    mov rsp, rbp", "    pop rbp", "    ret"]
  | _ => st

/-- `codegen_emit_prologue` (`codegen.c:74-78`). -/
def codegenEmitPrologue (st : CGState) : CGState :=
  emitLines st [".section .text", ".global main", ""]

/-- `codegen_emit_epilogue` (`codegen.c:81-95`): the data section with the
pooled string literals and the zero-initialized globals. -/
def codegenEmitEpilogue (st : CGState) : CGState :=
  let st := emitLine st "\n.section .data"
  let strLines :=
    st.stringLits.enum.map
      (fun p => "str_" ++ decRepr p.1 ++ ": .asciz " ++ p.2)
  let st := emitLines st strLines
  emitLines st (st.globals.map (fun g => g ++ ": .quad 0"))

/-- The declaration loop of `codegen_generate` (`codegen.c:515-521`):
only function declarations are emitted. -/
def codegenEmitFunctionList (l : List AstNode) (st : CGState) : CGState :=
  match l with
  | [] => st
  | d :: rest =>
    let st := match d with
      | .functionDecl _ _ _ _ => codegenEmitFunction d st
      | _ => st
    codegenEmitFunctionList rest st

inductive CgStatus where
  | success
  | invalidAst
  deriving DecidableEq, Repr

/-- `codegen_generate` (`codegen.c:507-535`): prologue, then the
declarations of a program node (anything else is an invalid-AST error
after the prologue), then the epilogue. -/
def codegenGenerate (ast : AstNode) (st : CGState) : CgStatus × CGState :=
  let st := codegenEmitPrologue st
  match ast with
  | .program (some ds) =>
    let st := codegenEmitFunctionList ds st
    (.success, codegenEmitEpilogue st)
  | _ => (.invalidAst, st)

/-! ## Call resolution of the type checker

`check_expression` is declared in `type_checker.h` but no definition
exists in the sources (`type_infer` leaves call nodes to a TODO), so the
overload/priority rule is modelled from the specification. -/

/-- A callable declaration visible to the checker: name, parameter types,
return type and the priority tie-breaker. -/
structure FnDecl where
  name : String
  paramTypes : List Ty
  returnType : Ty
  priority : Int

/-- Modelled from the spec: a declaration matches a call when it has the
callee's name, an equal argument count to the declared parameter count,
and pairwise-compatible argument/parameter types (spec section 4.4; the
definition of `check_expression` is missing from the sources). -/
def declMatchesCall (d : FnDecl) (callee : String) (argTypes : List Ty) :
    Bool :=
  d.name == callee && d.paramTypes.length == argTypes.length &&
    typeListCompatible argTypes d.paramTypes

inductive Resolution where
  | selected (d : FnDecl)
  | ambiguous
  | noMatch

/-- Modelled from the spec: among the declarations matching a call, the
one with the higher `priority` value is selected, and a tie (equal
priority, both otherwise matching) is a reported ambiguity, not a
silently-resolved pick (spec section 4.4; the definition of
`check_expression` is missing from the sources). -/
def resolveCall (decls : List FnDecl) (callee : String)
    (argTypes : List Ty) : Resolution :=
  let cands := decls.filter (fun d => declMatchesCall d callee argTypes)
  match cands with
  | [] => .noMatch
  | c :: cs =>
    let best := cs.foldl (fun m d => max m d.priority) c.priority
    match cands.filter (fun d => d.priority == best) with
    | [d] => .selected d
    | _ => .ambiguous

/-! ## Invariants of the code generator state

`labelInv` says the labels allocated so far are exactly `L0 .. L(c-1)`
where `c` is the current counter; `cgExtends st0 st` says `st`'s output
extends `st0`'s by some appended suffix. -/

/-- Seven identifier parameters with distinct local offsets, used to
exercise both the register and the stack marshaling paths. -/
def demoParams7 : List (Option AstNode) :=
  [some (.identifier "p0" 8 true), some (.identifier "p1" 16 true),
   some (.identifier "p2" 24 true), some (.identifier "p3" 32 true),
   some (.identifier "p4" 40 true), some (.identifier "p5" 48 true),
   some (.identifier "p6" 56 true)]

def labelInv (st : CGState) : Prop :=
  st.allocated = (List.range st.labelCounter).map labelName

def cgExtends (st0 st : CGState) : Prop := ∃ t, st.out = st0.out ++ t

/-! ## Theorems -/

theorem digitsVal_append_singleton (ds : List Char) (c : Char) :
    digitsVal (ds ++ [c]) = 10 * digitsVal ds + (c.toNat - 48) := by
  simp [digitsVal, List.foldl_append]

theorem digitChar_toNat {n : Nat} (h : n < 10) : (digitChar n).toNat - 48 = n := by
  interval_cases n <;> decide

theorem digitsVal_decDigits :
    ∀ (fuel n : Nat), n < 10 ^ fuel → digitsVal (decDigits fuel n) = n := by
  intro fuel
  induction fuel with
  | zero =>
    intro n h
    have hn : n = 0 := by omega
    simp [hn, decDigits, digitsVal]
  | succ f ih =>
    intro n h
    by_cases h10 : n < 10
    · simp [decDigits, h10, digitsVal, digitChar_toNat h10]
    · have hdiv : n / 10 < 10 ^ f := by
        rw [Nat.div_lt_iff_lt_mul (by norm_num)]
        calc n < 10 ^ (f + 1) := h
        _ = 10 ^ f * 10 := by ring
      rw [decDigits, if_neg h10, digitsVal_append_singleton, ih _ hdiv,
        digitChar_toNat (Nat.mod_lt _ (by norm_num))]
      omega

theorem lt_ten_pow_succ (n : Nat) : n < 10 ^ (n + 1) := by
  calc n < 2 ^ n := Nat.lt_two_pow n
  _ ≤ 10 ^ n := Nat.pow_le_pow_left (by norm_num) n
  _ ≤ 10 ^ (n + 1) := Nat.pow_le_pow_right (by norm_num) (Nat.le_succ n)

theorem decRepr_injective : Function.Injective decRepr := by
  intro m n h
  have hd : decDigits (m + 1) m = decDigits (n + 1) n := by
    have := congrArg String.data h
    simpa [decRepr] using this
  have hm := digitsVal_decDigits (m + 1) m (lt_ten_pow_succ m)
  have hn := digitsVal_decDigits (n + 1) n (lt_ten_pow_succ n)
  rw [← hm, ← hn, hd]

/-- Any type whose kind the compatibility switch does not list falls to the
`default` arm, so it is compatible with nothing at all. -/
theorem typeIsCompatibleWith_unhandled (a b : Ty)
    (h : a.kind = .unit ∨ a.kind = .char ∨ a.kind = .void ∨ a.kind = .pointer) :
    typeIsCompatibleWith a b = false := by
  cases a <;> simp [Ty.kind] at h <;> cases b <;> simp [typeIsCompatibleWith]

/-! ### Lexer lemmas -/

set_option maxHeartbeats 1000000

/-- The body of `scan_token` never consults the incoming line counter for
anything except the token's `line` field: token type, lexeme, value and
the state's cursor, start and source are unchanged when the scan starts
from a different line number. -/
theorem scanTokenBody_line_invariant (m : LexState) (n : Nat) :
    (scanTokenBody { m with line := n }).1.type = (scanTokenBody m).1.type ∧
    (scanTokenBody { m with line := n }).1.lexeme
        = (scanTokenBody m).1.lexeme ∧
    (scanTokenBody { m with line := n }).1.value = (scanTokenBody m).1.value ∧
    (scanTokenBody { m with line := n }).2.current
        = (scanTokenBody m).2.current ∧
    (scanTokenBody { m with line := n }).2.lstart
        = (scanTokenBody m).2.lstart ∧
    (scanTokenBody { m with line := n }).2.source
        = (scanTokenBody m).2.source := by
  refine ⟨?_, ?_, ?_, ?_, ?_, ?_⟩ <;>
  · simp only [scanTokenBody, strlen, identifierScan, numberScan, stringScan,
      matchCh, errorToken, makeToken, simpleToken, lexemeChars]
    repeat (first | rfl | split)

/-- Scanning never modifies the source text. -/
theorem scanToken_source (l : LexState) : (scanToken l).2.source = l.source := by
  simp only [scanToken, skipWhitespace, scanTokenBody, strlen, identifierScan,
    numberScan, stringScan, matchCh, errorToken, makeToken, simpleToken,
    lexemeChars]
  repeat (first | rfl | split)

/-- Two lexer states with the same source and cursor scan the same token
(up to its `line` field) and end at the same cursor: scanning depends on
the `start`/`line` bookkeeping only through the token's line number. -/
theorem scanToken_pos_invariant (l₁ l₂ : LexState)
    (hsrc : l₁.source = l₂.source) (hcur : l₁.current = l₂.current) :
    (scanToken l₁).1.type = (scanToken l₂).1.type ∧
    (scanToken l₁).1.lexeme = (scanToken l₂).1.lexeme ∧
    (scanToken l₁).1.value = (scanToken l₂).1.value ∧
    (scanToken l₁).2.current = (scanToken l₂).2.current := by
  obtain ⟨src1, s1, c1, li1⟩ := l₁
  obtain ⟨src2, s2, c2, li2⟩ := l₂
  simp only at hsrc hcur
  subst hsrc; subst hcur
  simp only [scanToken, skipWhitespace, strlen]
  have h := scanTokenBody_line_invariant
    ⟨src1, (skipWsAux (src1.length + 1) src1 c1).1,
      (skipWsAux (src1.length + 1) src1 c1).1,
      li2 + (skipWsAux (src1.length + 1) src1 c1).2⟩
    (li1 + (skipWsAux (src1.length + 1) src1 c1).2)
  exact ⟨h.1, h.2.1, h.2.2.1, h.2.2.2.1⟩

/-- The string loop runs to the end of the input when no closing quote
occurs at or after its starting position. -/
theorem stringAux_runs_to_end :
    ∀ (fuel : Nat) (src : List Char) (i : Nat), i ≤ src.length →
      src.length - i ≤ fuel →
      (∀ j, i ≤ j → j < src.length → chAt src j ≠ '"') →
      (stringAux fuel src i).1 = src.length := by
  intro fuel
  induction fuel with
  | zero =>
    intro src i h1 h2 _
    have h3 : i = src.length := by omega
    simp [stringAux, h3]
  | succ f ih =>
    intro src i h1 h2 h3
    by_cases hend : i < src.length
    · have hq : chAt src i ≠ '"' := h3 i le_rfl hend
      rw [stringAux, if_pos ⟨hq, hend⟩]
      exact ih src (i + 1) (by omega) (by omega)
        (fun j hj1 hj2 => h3 j (by omega) hj2)
    · have h4 : i = src.length := by omega
      simp [stringAux, h4]

/-- `string` on input with no closing quote before end of input returns
the unterminated-string error token (it does not abort the scan). -/
theorem stringScan_unterminated (l : LexState) (h1 : l.current ≤ strlen l)
    (h2 : ∀ j, l.current ≤ j → j < strlen l → chAt l.source j ≠ '"') :
    (stringScan l).1.type = .error ∧
    (stringScan l).1.lexeme = "Unterminated string." := by
  have hrun := stringAux_runs_to_end (strlen l + 1) l.source l.current h1
    (by simp only [strlen]; omega) h2
  simp only [strlen] at hrun
  simp [stringScan, hrun, errorToken, strlen]

/-! ## Claim theorems: type system -/

/-- C1, counterexample.  The claim states that `is_compatible` permits
numeric widening, `is_compatible(Int, Float) = true` and
`is_compatible(Float, Int) = true`.  In the code a kind mismatch is
rejected before the switch runs, so both calls return `false`. -/
theorem claim_C1_counterexample :
    typeIsCompatibleWith Ty.integer Ty.float = false ∧
    typeIsCompatibleWith Ty.float Ty.integer = false := by
  exact ⟨rfl, rfl⟩

/-- C1, amended.  `type_is_compatible_with` does not permit numeric
widening: an `Int`/`Float` pair is incompatible in both directions, each of
`Int` and `Float` is compatible with itself, and compatibility restricted
to these two types is still symmetric. -/
theorem claim_C1_amended :
    typeIsCompatibleWith Ty.integer Ty.float = false ∧
    typeIsCompatibleWith Ty.float Ty.integer = false ∧
    typeIsCompatibleWith Ty.integer Ty.integer = true ∧
    typeIsCompatibleWith Ty.float Ty.float = true ∧
    typeIsCompatibleWith Ty.integer Ty.float =
      typeIsCompatibleWith Ty.float Ty.integer := by
  exact ⟨rfl, rfl, rfl, rfl, rfl⟩

/-- C2, counterexample.  The claim states that a mixed `Float`/`Int`
operand pair of an arithmetic binary expression infers the wider type
`Float`; on a `Float + Int` node `type_infer` takes the second numeric
branch and returns the RIGHT operand's type, which is `Int`. -/
theorem claim_C2_counterexample :
    typeInfer (some (.binary .plus .float
        (some (.literal (.float 0))) (some (.literal (.integer 1))))) =
      some Ty.integer ∧ Ty.integer ≠ Ty.float := by
  refine ⟨by simp [typeInfer, Ty.kind], fun h => nomatch h⟩

/-- C2, amended.  For an arithmetic binary operator (`+ - * /`) over two
numeric operands, inference yields `Int` when both operands infer `Int`,
and otherwise yields the RIGHT operand's type: `Int`/`Float` gives `Float`
and `Float`/`Float` gives `Float`, but `Float`/`Int` gives `Int` — the
wider type does not always win. -/
theorem claim_C2_amended (op : TokenType) (bty : TypeKind)
    (l r : Option AstNode) (lt rt : Ty)
    (hop : op = .plus ∨ op = .minus ∨ op = .star ∨ op = .slash)
    (hl : typeInfer l = some lt) (hr : typeInfer r = some rt)
    (hlt : lt = .integer ∨ lt = .float) (hrt : rt = .integer ∨ rt = .float) :
    (lt = .integer ∧ rt = .integer →
      typeInfer (some (.binary op bty l r)) = some Ty.integer) ∧
    (¬(lt = .integer ∧ rt = .integer) →
      typeInfer (some (.binary op bty l r)) = some rt) := by
  constructor
  · rintro ⟨h1, h2⟩
    subst h1; subst h2
    rcases hop with rfl | rfl | rfl | rfl <;> simp [typeInfer, hl, hr, Ty.kind]
  · intro hnot
    rcases hlt with rfl | rfl <;> rcases hrt with rfl | rfl
    · exact absurd ⟨rfl, rfl⟩ hnot
    all_goals
      rcases hop with rfl | rfl | rfl | rfl <;>
        simp [typeInfer, hl, hr, Ty.kind]

/-- C2, witness: an `Int + Float` node infers `Float` (the right operand's
type), with every hypothesis of the amended theorem discharged at this
concrete input. -/
theorem claim_C2_witness :
    typeInfer (some (.binary .plus .float
        (some (.literal (.integer 2))) (some (.literal (.float 3))))) =
      some Ty.float := by
  exact (claim_C2_amended .plus .float
      (some (.literal (.integer 2))) (some (.literal (.float 3)))
      Ty.integer Ty.float (Or.inl rfl) (by simp [typeInfer])
      (by simp [typeInfer]) (Or.inl rfl) (Or.inr rfl)).2
    (fun h => nomatch h.2)

/-- C5.  Shape mismatches are never compatible, regardless of element
compatibility: the two concrete pairs from the specification, and in
general any vector-dimension, matrix-rows/cols, tensor-dimension-vector,
tuple-arity or function-parameter-arity mismatch is incompatible. -/
theorem claim_C5 :
    typeIsCompatibleWith (.vector 3 .integer) (.vector 4 .integer) = false ∧
    typeIsCompatibleWith (.matrix 2 3 .integer) (.matrix 3 2 .integer) = false ∧
    (∀ d1 d2 e1 e2, d1 ≠ d2 →
      typeIsCompatibleWith (.vector d1 e1) (.vector d2 e2) = false) ∧
    (∀ r1 c1 r2 c2 e1 e2, r1 ≠ r2 ∨ c1 ≠ c2 →
      typeIsCompatibleWith (.matrix r1 c1 e1) (.matrix r2 c2 e2) = false) ∧
    (∀ ds1 ds2 e1 e2, ds1 ≠ ds2 →
      typeIsCompatibleWith (.tensor ds1 e1) (.tensor ds2 e2) = false) ∧
    (∀ ts1 ts2 : List Ty, ts1.length ≠ ts2.length →
      typeIsCompatibleWith (.tuple ts1) (.tuple ts2) = false) ∧
    (∀ (ps1 : List Ty) r1 (ps2 : List Ty) r2, ps1.length ≠ ps2.length →
      typeIsCompatibleWith (.function ps1 r1) (.function ps2 r2) = false) := by
  refine ⟨rfl, rfl, ?_, ?_, ?_, ?_, ?_⟩
  · intro d1 d2 e1 e2 h; simp [typeIsCompatibleWith, h]
  · intro r1 c1 r2 c2 e1 e2 h
    rcases h with h | h <;> simp [typeIsCompatibleWith, h]
  · intro ds1 ds2 e1 e2 h; simp [typeIsCompatibleWith, h]
  · intro ts1 ts2 h; simp [typeIsCompatibleWith, h]
  · intro ps1 r1 ps2 r2 h; simp [typeIsCompatibleWith, h]

/-- C5, witness: the universally quantified parts applied at concrete
shape-mismatched inputs whose elements are pairwise compatible. -/
theorem claim_C5_witness :
    typeIsCompatibleWith (.tensor [2, 3] .float) (.tensor [3, 2] .float)
        = false ∧
    typeIsCompatibleWith (.function [Ty.integer] .integer)
        (.function [Ty.integer, Ty.integer] .integer) = false := by
  exact ⟨claim_C5.2.2.2.2.1 [2, 3] [3, 2] .float .float (by decide),
    claim_C5.2.2.2.2.2.2 [Ty.integer] .integer [Ty.integer, Ty.integer]
      .integer (by decide)⟩

/-- C9.  Compatibility is not reflexive over all kinds: a type whose kind
the switch does not handle (`Unit`, `Char`, `Void`, `Pointer`) is not even
compatible with itself, and any `true` answer forces the left kind to be
one of the handled kinds. -/
theorem claim_C9 :
    (∀ t : Ty,
      t.kind = .unit ∨ t.kind = .char ∨ t.kind = .void ∨ t.kind = .pointer →
      typeIsCompatibleWith t t = false) ∧
    (∀ a b : Ty, typeIsCompatibleWith a b = true →
      a.kind = .integer ∨ a.kind = .float ∨ a.kind = .boolean ∨
      a.kind = .string ∨ a.kind = .array ∨ a.kind = .tuple ∨
      a.kind = .vector ∨ a.kind = .matrix ∨ a.kind = .tensor ∨
      a.kind = .quaternion ∨ a.kind = .complex ∨ a.kind = .function ∨
      a.kind = .named) := by
  constructor
  · intro t h; exact typeIsCompatibleWith_unhandled t t h
  · intro a b h
    cases a <;> simp [Ty.kind] <;>
      (rw [typeIsCompatibleWith_unhandled _ b (by simp [Ty.kind])] at h
       cases h)

/-- C9, witness: the unhandled-kind part applied at `Unit` and `Void`, and
the handled-kind part applied at a `true` instance. -/
theorem claim_C9_witness :
    typeIsCompatibleWith Ty.unit Ty.unit = false ∧
    typeIsCompatibleWith Ty.void Ty.void = false := by
  exact ⟨claim_C9.1 Ty.unit (Or.inl rfl),
    claim_C9.1 Ty.void (Or.inr (Or.inr (Or.inl rfl)))⟩

/-- C3.  For a call whose callee name is shared by two matching
declarations with identical shapes, resolution selects the declaration
with the higher priority value; an equal-priority pair resolves to an
ambiguity, never silently to one of the two. -/
theorem claim_C3 (d1 d2 : FnDecl) (callee : String) (argTypes : List Ty)
    (h1 : declMatchesCall d1 callee argTypes = true)
    (h2 : declMatchesCall d2 callee argTypes = true) :
    (d1.priority < d2.priority →
      resolveCall [d1, d2] callee argTypes = .selected d2) ∧
    (d1.priority = d2.priority →
      resolveCall [d1, d2] callee argTypes = .ambiguous) := by
  constructor
  · intro hlt
    have hmax : max d1.priority d2.priority = d2.priority :=
      max_eq_right (le_of_lt hlt)
    have hne : (d1.priority == d2.priority) = false := by
      simp [hlt.ne]
    simp [resolveCall, h1, h2, hmax, hne]
  · intro heq
    simp [resolveCall, h1, h2, heq]

/-- C3, witness: Scenario D with priorities 1 and 2 resolves to the
priority-2 declaration; equal priorities 2 and 2 give the ambiguity. -/
theorem claim_C3_witness :
    resolveCall [⟨"f", [Ty.integer], .integer, 1⟩,
        ⟨"f", [Ty.integer], .integer, 2⟩] "f" [Ty.integer] =
      .selected ⟨"f", [Ty.integer], .integer, 2⟩ ∧
    resolveCall [⟨"g", [Ty.integer], .integer, 2⟩,
        ⟨"g", [Ty.integer], .integer, 2⟩] "g" [Ty.integer] =
      .ambiguous := by
  constructor
  · exact (claim_C3 _ _ _ _ (by rfl) (by rfl)).1 (by norm_num)
  · exact (claim_C3 _ _ _ _ (by rfl) (by rfl)).2 rfl

/-! ## Claim theorems: lexer -/

/-- C4, counterexample.  The claim states that `peek` is side-effect-free:
`peek` then `next` returns a token identical (including its line number)
to what `next` alone returns, and `peek` leaves the state observationally
unchanged.  On the source `"\nx"` (a newline then `x`), `peek` restores
only the cursor, not the line counter, so the subsequent `next` reports
the `x` token on line 3 instead of line 2, and the peeked state differs
from the original. -/
theorem claim_C4_counterexample :
    (lexerNextToken ((lexerPeekToken (lexerInit "\nx")).2)).1.line ≠
      (lexerNextToken (lexerInit "\nx")).1.line ∧
    (lexerPeekToken (lexerInit "\nx")).2 ≠ lexerInit "\nx" := by
  decide

/-- C4, amended.  `peek` returns exactly the token `next` would return
from the same state and restores the `current` cursor (the source is also
untouched), but it does not restore the `line`/`start` bookkeeping; the
token a subsequent `next` returns therefore agrees with what `next` alone
would have returned in its type, lexeme and value — and in the resulting
cursor — but not necessarily in its line number. -/
theorem claim_C4_amended (l : LexState) :
    (lexerPeekToken l).1 = (lexerNextToken l).1 ∧
    (lexerPeekToken l).2.current = l.current ∧
    (lexerPeekToken l).2.source = l.source ∧
    (lexerNextToken (lexerPeekToken l).2).1.type
        = (lexerNextToken l).1.type ∧
    (lexerNextToken (lexerPeekToken l).2).1.lexeme
        = (lexerNextToken l).1.lexeme ∧
    (lexerNextToken (lexerPeekToken l).2).1.value
        = (lexerNextToken l).1.value ∧
    (lexerNextToken (lexerPeekToken l).2).2.current
        = (lexerNextToken l).2.current := by
  have hsrc : (lexerPeekToken l).2.source = l.source := by
    simp only [lexerPeekToken]
    exact scanToken_source l
  have h := scanToken_pos_invariant (lexerPeekToken l).2 l hsrc rfl
  exact ⟨rfl, rfl, hsrc, h.1, h.2.1, h.2.2.1, h.2.2.2⟩

/-- C8.  When a string literal's opening quote is never followed by a
closing quote before end of input, `string` yields the
unterminated-string error token (first part), and so does a whole
`scan_token` call that begins at the opening quote (second part); the
scanner returns normally, so lexing continues. -/
theorem claim_C8 :
    (∀ l : LexState, l.current ≤ strlen l →
      (∀ j, l.current ≤ j → j < strlen l → chAt l.source j ≠ '"') →
      (stringScan l).1.type = .error ∧
      (stringScan l).1.lexeme = "Unterminated string.") ∧
    (∀ l : LexState, chAt l.source l.current = '"' → l.current < strlen l →
      (∀ j, l.current < j → j < strlen l → chAt l.source j ≠ '"') →
      (scanToken l).1.type = .error ∧
      (scanToken l).1.lexeme = "Unterminated string.") := by
  constructor
  · exact fun l h1 h2 => stringScan_unterminated l h1 h2
  · intro l hc hlt h2
    have hws : skipWhitespace l = l := by
      rw [skipWhitespace, skipWsAux]
      simp [hc, strlen]
    rw [scanToken, hws, scanTokenBody]
    have hne : ¬ strlen { l with lstart := l.current } ≤
        LexState.current { l with lstart := l.current } := by
      simp only [strlen] at hlt ⊢
      omega
    rw [if_neg hne]
    simp only [hc]
    rw [if_neg (show ¬(Char.isAlpha '"' = true ∨ '"' = '_') by decide),
      if_neg (show ¬(Char.isDigit '"' = true) by decide)]
    refine stringScan_unterminated _ ?_ ?_
    · simp only [strlen] at hlt ⊢
      omega
    · intro j hj1 hj2
      simp only [strlen] at hj1 hj2 ⊢
      exact h2 j (by omega) (by simp only [strlen]; omega)

/-- C8, witness: scanning the source `"abc` (an opening quote never
closed) yields the unterminated-string error token, with the hypotheses
of both parts discharged at this concrete state. -/
theorem claim_C8_witness :
    (scanToken (lexerInit "\"abc")).1.type = TokenType.error ∧
    (scanToken (lexerInit "\"abc")).1.lexeme = "Unterminated string." := by
  refine claim_C8.2 (lexerInit "\"abc") (by decide) (by decide) ?_
  intro j hj1 hj2
  have h4 : strlen (lexerInit "\"abc") = 4 := rfl
  rw [h4] at hj2
  have h0 : (lexerInit "\"abc").current = 0 := rfl
  rw [h0] at hj1
  interval_cases j <;> decide

/-! ## Claim theorems: parser -/

/-- A successfully parsed integer is non-negative when every number token
in the stream carries a non-negative value (as the scanner guarantees). -/
theorem parserParseInteger_nonneg {toks : List Token} {pos : Nat} {v : Int}
    {pos' : Nat} (hnn : numsNonneg toks)
    (h : parserParseInteger toks pos = .ok (v, pos')) : 0 ≤ v := by
  rw [parserParseInteger] at h
  split at h
  · rename_i ht
    cases h
    have hq : 0 ≤ tokenNum (tokAt toks pos) := by
      by_cases hp : pos < toks.length
      · refine hnn _ ?_ ht
        simp only [tokAt, List.getD_eq_getElem?_getD,
          List.getElem?_eq_getElem hp, Option.getD_some]
        exact List.getElem_mem hp
      · exfalso
        have he : tokAt toks pos = eofTok := by
          simp [tokAt, List.getD_eq_getElem?_getD,
            List.getElem?_eq_none (Nat.le_of_not_lt hp)]
        rw [he] at ht
        exact absurd ht (by decide)
    rw [cIntOfDouble, if_pos hq]
    exact Int.floor_nonneg.mpr hq
  · cases h

/-- The priority clause always yields a non-negative priority: `0` when
absent, a truncated non-negative number token when present. -/
theorem parserParsePriority_nonneg {toks : List Token} {pos : Nat}
    {p : Int} {pos' : Nat} (hnn : numsNonneg toks)
    (h : parserParsePriority toks pos = .ok (p, pos')) : 0 ≤ p := by
  rw [parserParsePriority] at h
  split at h
  · exact parserParseInteger_nonneg hnn h
  · cases h; exact le_refl 0

/-- Any successfully parsed function carries a non-negative priority. -/
theorem parserParseFunction_priority_nonneg
    {fuel : Nat} {toks : List Token} {pos : Nat} {f : Func} {pos' : Nat}
    (hnn : numsNonneg toks)
    (h : parserParseFunction fuel toks pos = .ok (f, pos')) :
    0 ≤ f.priority := by
  rw [parserParseFunction] at h
  split at h
  · cases h
  · split at h
    · cases h
    · split at h
      · cases h
      · split at h
        · cases h
        · split at h
          · cases h
          · split at h
            · cases h
            · split at h
              · cases h
              · split at h
                · cases h
                · rename_i hprio
                  split at h
                  · cases h
                  · cases h
                    exact parserParsePriority_nonneg hnn hprio

/-- C10.  When the optional priority clause is absent (the peeked token
is not `TOKEN_PRIORITY`), the parser sets the priority to `0` and
consumes nothing; consequently every successfully parsed function carries
a non-negative priority, and a declaration without a priority clause
parses to the same `Function` record as one with an explicit
`priority 0`. -/
theorem claim_C10 :
    (∀ (toks : List Token) (pos : Nat),
      (tokAt toks pos).type ≠ .priority →
      parserParsePriority toks pos = .ok (0, pos)) ∧
    (∀ (fuel : Nat) (toks : List Token) (pos : Nat) (f : Func)
      (pos' : Nat), numsNonneg toks →
      parserParseFunction fuel toks pos = .ok (f, pos') →
      0 ≤ f.priority) ∧
    parsedFuncOf (parserParseFunction 4 demoToksNoPriority 0)
        = some demoFunc ∧
    parsedFuncOf (parserParseFunction 4 demoToksPriorityZero 0)
        = some demoFunc ∧
    demoFunc.priority = 0 := by
  refine ⟨?_, ?_, rfl, rfl, rfl⟩
  · intro toks pos h
    rw [parserParsePriority, if_neg h]
  · intro fuel toks pos f pos' hnn h
    exact parserParseFunction_priority_nonneg hnn h

/-- C10, witness: the priority-absence part applied at the demo stream's
priority-decision point, and the non-negativity part applied to the
parsed demo declaration. -/
theorem claim_C10_witness :
    parserParsePriority demoToksNoPriority 6 = .ok (0, 6) ∧
    (0 : Int) ≤ demoFunc.priority := by
  constructor
  · exact claim_C10.1 demoToksNoPriority 6 (by decide)
  · exact claim_C10.2.1 4 demoToksNoPriority 0 demoFunc 8
      (by unfold numsNonneg; decide) (by rfl)

/-! ## Claim theorems: code generator -/

theorem labelInv_emitLine {st : CGState} (h : labelInv st) (s : String) :
    labelInv (emitLine st s) := h

theorem labelInv_emitLines {st : CGState} (h : labelInv st)
    (ls : List String) : labelInv (emitLines st ls) := h

theorem labelInv_newLabel {st : CGState} (h : labelInv st) :
    labelInv (codegenNewLabel st).2 := by
  unfold labelInv codegenNewLabel at *
  simp only [List.range_succ, List.map_append, List.map_cons,
    List.map_nil, h]

theorem labelInv_emitLiteral {st : CGState} (h : labelInv st)
    (lit : LitValue) : labelInv (codegenEmitLiteral lit st) := by
  cases lit <;> simp only [codegenEmitLiteral] <;> exact h

theorem labelInv_emitVariable {st : CGState} (h : labelInv st)
    (name : String) (offset : Nat) (isLocal : Bool) :
    labelInv (codegenEmitVariable name offset isLocal st) := by
  unfold codegenEmitVariable
  split <;> exact h

mutual

theorem labelInv_emitStatement (node : AstNode) (st : CGState)
    (h : labelInv st) : labelInv (codegenEmitStatement node st) := by
  cases node with
  | block stmts =>
    cases stmts with
    | none => simp only [codegenEmitStatement]; exact h
    | some l =>
      simp only [codegenEmitStatement]
      exact labelInv_emitStmtList l st h
  | ifStmt cond thenBr elseBr =>
    cases cond with
    | none => simp only [codegenEmitStatement]; exact h
    | some c =>
      cases thenBr with
      | none =>
        cases elseBr with
        | none =>
          simp only [codegenEmitStatement]
          exact labelInv_emitLine (labelInv_emitLine (labelInv_emitLine
            (labelInv_emitLine (labelInv_emitLine (labelInv_newLabel
              (labelInv_newLabel (labelInv_emitExpression c st h))) _) _)
            _) _) _
        | some e =>
          simp only [codegenEmitStatement]
          exact labelInv_emitLine (labelInv_emitStatement e _
            (labelInv_emitLine (labelInv_emitLine (labelInv_emitLine
              (labelInv_emitLine (labelInv_newLabel (labelInv_newLabel
                (labelInv_emitExpression c st h))) _) _) _) _)) _
      | some t =>
        cases elseBr with
        | none =>
          simp only [codegenEmitStatement]
          exact labelInv_emitLine (labelInv_emitLine (labelInv_emitLine
            (labelInv_emitStatement t _ (labelInv_emitLine
              (labelInv_emitLine (labelInv_newLabel (labelInv_newLabel
                (labelInv_emitExpression c st h))) _) _)) _) _) _
        | some e =>
          simp only [codegenEmitStatement]
          exact labelInv_emitLine (labelInv_emitStatement e _
            (labelInv_emitLine (labelInv_emitLine (labelInv_emitStatement
              t _ (labelInv_emitLine (labelInv_emitLine (labelInv_newLabel
                (labelInv_newLabel (labelInv_emitExpression c st h))) _)
              _)) _) _)) _
  | whileStmt cond body =>
    cases cond with
    | none => simp only [codegenEmitStatement]; exact h
    | some c =>
      cases body with
      | none =>
        simp only [codegenEmitStatement]
        exact labelInv_emitLine (labelInv_emitLine (labelInv_emitLine
          (labelInv_emitLine (labelInv_emitExpression c _
            (labelInv_emitLine (labelInv_newLabel (labelInv_newLabel h))
            _)) _) _) _) _
      | some b =>
        simp only [codegenEmitStatement]
        exact labelInv_emitLine (labelInv_emitLine (labelInv_emitStatement
          b _ (labelInv_emitLine (labelInv_emitLine
            (labelInv_emitExpression c _ (labelInv_emitLine
              (labelInv_newLabel (labelInv_newLabel h)) _)) _) _)) _) _
  | returnStmt v =>
    cases v with
    | none => simp only [codegenEmitStatement]; exact labelInv_emitLines h _
    | some e =>
      simp only [codegenEmitStatement]
      exact labelInv_emitLines (labelInv_emitExpression e st h) _
  | program decls =>
    simp only [codegenEmitStatement]
    exact labelInv_emitExpression _ st h
  | functionDecl name localSize params body =>
    simp only [codegenEmitStatement]
    exact labelInv_emitExpression _ st h
  | literal lit =>
    simp only [codegenEmitStatement]
    exact labelInv_emitExpression _ st h
  | binary op bty left right =>
    simp only [codegenEmitStatement]
    exact labelInv_emitExpression _ st h
  | unary op operand =>
    simp only [codegenEmitStatement]
    exact labelInv_emitExpression _ st h
  | call callee args =>
    simp only [codegenEmitStatement]
    exact labelInv_emitExpression _ st h
  | identifier name offset isLocal =>
    simp only [codegenEmitStatement]
    exact labelInv_emitExpression _ st h
termination_by 2 * sizeOf node + 1

theorem labelInv_emitStmtList (l : List (Option AstNode)) (st : CGState)
    (h : labelInv st) : labelInv (codegenEmitStmtList l st) := by
  cases l with
  | nil => simp only [codegenEmitStmtList]; exact h
  | cons a rest =>
    cases a with
    | none =>
      simp only [codegenEmitStmtList]
      exact labelInv_emitStmtList rest st h
    | some s =>
      simp only [codegenEmitStmtList]
      exact labelInv_emitStmtList rest _ (labelInv_emitStatement s st h)
termination_by 2 * sizeOf l

theorem labelInv_emitExpression (node : AstNode) (st : CGState)
    (h : labelInv st) : labelInv (codegenEmitExpression node st) := by
  cases node with
  | literal lit =>
    simp only [codegenEmitExpression]
    exact labelInv_emitLiteral h lit
  | binary op bty left right =>
    simp only [codegenEmitExpression]
    exact labelInv_emitBinary op bty left right st h
  | unary op operand =>
    simp only [codegenEmitExpression]
    exact labelInv_emitUnary op operand st h
  | call callee args =>
    simp only [codegenEmitExpression]
    exact labelInv_emitCall callee args st h
  | identifier name offset isLocal =>
    simp only [codegenEmitExpression]
    exact labelInv_emitVariable h name offset isLocal
  | program decls => simp only [codegenEmitExpression]; exact h
  | functionDecl a b c d => simp only [codegenEmitExpression]; exact h
  | block stmts => simp only [codegenEmitExpression]; exact h
  | ifStmt a b c => simp only [codegenEmitExpression]; exact h
  | whileStmt a b => simp only [codegenEmitExpression]; exact h
  | returnStmt a => simp only [codegenEmitExpression]; exact h
termination_by 2 * sizeOf node

theorem labelInv_emitExprOpt (node : Option AstNode) (st : CGState)
    (h : labelInv st) : labelInv (codegenEmitExprOpt node st) := by
  cases node with
  | none => simp only [codegenEmitExprOpt]; exact h
  | some n =>
    simp only [codegenEmitExprOpt]
    exact labelInv_emitExpression n st h
termination_by 2 * sizeOf node

theorem labelInv_emitBinary (op : TokenType) (bty : TypeKind)
    (left right : Option AstNode) (st : CGState) (h : labelInv st) :
    labelInv (codegenEmitBinary op bty left right st) := by
  have h1 := labelInv_emitExprOpt right st h
  have h2 := labelInv_emitLine h1 "    push rax"
  have h3 := labelInv_emitExprOpt left _ h2
  have h4 := labelInv_emitLine h3 "    pop rbx"
  cases op <;> simp only [codegenEmitBinary] <;>
    first
    | exact h4
    | (split <;> exact labelInv_emitLines h4 _)
termination_by 2 * (sizeOf left + sizeOf right) + 1

theorem labelInv_emitUnary (op : TokenType) (operand : Option AstNode)
    (st : CGState) (h : labelInv st) :
    labelInv (codegenEmitUnary op operand st) := by
  have h1 := labelInv_emitExprOpt operand st h
  cases op <;> simp only [codegenEmitUnary] <;> exact h1
termination_by 2 * sizeOf operand + 1

theorem labelInv_emitCall (callee : Option AstNode)
    (args : Option (List (Option AstNode))) (st : CGState)
    (h : labelInv st) : labelInv (codegenEmitCall callee args st) := by
  cases args with
  | none =>
    simp only [codegenEmitCall]
    exact labelInv_emitLine (labelInv_emitExprOpt callee st h) _
  | some l =>
    simp only [codegenEmitCall]
    exact labelInv_emitLine
      (labelInv_emitLine
        (labelInv_emitExprOpt callee _ (labelInv_emitArgsRev l st h)) _) _
termination_by 2 * (sizeOf callee + sizeOf args) + 1

theorem labelInv_emitArgsRev (l : List (Option AstNode)) (st : CGState)
    (h : labelInv st) : labelInv (codegenEmitArgsRev l st) := by
  cases l with
  | nil => simp only [codegenEmitArgsRev]; exact h
  | cons a rest =>
    simp only [codegenEmitArgsRev]
    apply labelInv_emitLine
    exact labelInv_emitExprOpt a _ (labelInv_emitArgsRev rest st h)
termination_by 2 * sizeOf l

end

theorem cgExtends_refl (st : CGState) : cgExtends st st := ⟨[], by simp⟩

theorem cgExtends_emitLine {st0 st : CGState} (h : cgExtends st0 st)
    (s : String) : cgExtends st0 (emitLine st s) := by
  obtain ⟨t, ht⟩ := h
  exact ⟨t ++ [s], by simp [emitLine, ht]⟩

theorem cgExtends_emitLines {st0 st : CGState} (h : cgExtends st0 st)
    (ls : List String) : cgExtends st0 (emitLines st ls) := by
  obtain ⟨t, ht⟩ := h
  exact ⟨t ++ ls, by simp [emitLines, ht]⟩

theorem cgExtends_newLabel {st0 st : CGState} (h : cgExtends st0 st) :
    cgExtends st0 (codegenNewLabel st).2 := h

theorem cgExtends_emitLiteral {st0 st : CGState} (h : cgExtends st0 st)
    (lit : LitValue) : cgExtends st0 (codegenEmitLiteral lit st) := by
  cases lit <;> simp only [codegenEmitLiteral] <;>
    first
    | exact cgExtends_emitLine h _
    | exact cgExtends_emitLines h _

theorem cgExtends_emitVariable {st0 st : CGState} (h : cgExtends st0 st)
    (name : String) (offset : Nat) (isLocal : Bool) :
    cgExtends st0 (codegenEmitVariable name offset isLocal st) := by
  unfold codegenEmitVariable
  split <;> exact cgExtends_emitLine h _

mutual

theorem cgExtends_emitStatement (node : AstNode) (st0 st : CGState)
    (h : cgExtends st0 st) : cgExtends st0 (codegenEmitStatement node st) := by
  cases node with
  | block stmts =>
    cases stmts with
    | none => simp only [codegenEmitStatement]; exact h
    | some l =>
      simp only [codegenEmitStatement]
      exact cgExtends_emitStmtList l st0 st h
  | ifStmt cond thenBr elseBr =>
    cases cond with
    | none => simp only [codegenEmitStatement]; exact h
    | some c =>
      cases thenBr with
      | none =>
        cases elseBr with
        | none =>
          simp only [codegenEmitStatement]
          exact cgExtends_emitLine (cgExtends_emitLine (cgExtends_emitLine
            (cgExtends_emitLine (cgExtends_emitLine (cgExtends_newLabel
              (cgExtends_newLabel (cgExtends_emitExpression c st0 st h)))
              _) _) _) _) _
        | some e =>
          simp only [codegenEmitStatement]
          exact cgExtends_emitLine (cgExtends_emitStatement e st0 _
            (cgExtends_emitLine (cgExtends_emitLine (cgExtends_emitLine
              (cgExtends_emitLine (cgExtends_newLabel (cgExtends_newLabel
                (cgExtends_emitExpression c st0 st h))) _) _) _) _)) _
      | some t =>
        cases elseBr with
        | none =>
          simp only [codegenEmitStatement]
          exact cgExtends_emitLine (cgExtends_emitLine (cgExtends_emitLine
            (cgExtends_emitStatement t st0 _ (cgExtends_emitLine
              (cgExtends_emitLine (cgExtends_newLabel (cgExtends_newLabel
                (cgExtends_emitExpression c st0 st h))) _) _)) _) _) _
        | some e =>
          simp only [codegenEmitStatement]
          exact cgExtends_emitLine (cgExtends_emitStatement e st0 _
            (cgExtends_emitLine (cgExtends_emitLine (cgExtends_emitStatement
              t st0 _ (cgExtends_emitLine (cgExtends_emitLine
                (cgExtends_newLabel (cgExtends_newLabel
                  (cgExtends_emitExpression c st0 st h))) _) _)) _) _)) _
  | whileStmt cond body =>
    cases cond with
    | none => simp only [codegenEmitStatement]; exact h
    | some c =>
      cases body with
      | none =>
        simp only [codegenEmitStatement]
        exact cgExtends_emitLine (cgExtends_emitLine (cgExtends_emitLine
          (cgExtends_emitLine (cgExtends_emitExpression c st0 _
            (cgExtends_emitLine (cgExtends_newLabel (cgExtends_newLabel h))
            _)) _) _) _) _
      | some b =>
        simp only [codegenEmitStatement]
        exact cgExtends_emitLine (cgExtends_emitLine (cgExtends_emitStatement
          b st0 _ (cgExtends_emitLine (cgExtends_emitLine
            (cgExtends_emitExpression c st0 _ (cgExtends_emitLine
              (cgExtends_newLabel (cgExtends_newLabel h)) _)) _) _)) _) _
  | returnStmt v =>
    cases v with
    | none =>
      simp only [codegenEmitStatement]
      exact cgExtends_emitLines h _
    | some e =>
      simp only [codegenEmitStatement]
      exact cgExtends_emitLines (cgExtends_emitExpression e st0 st h) _
  | program decls =>
    simp only [codegenEmitStatement]
    exact cgExtends_emitExpression _ st0 st h
  | functionDecl name localSize params body =>
    simp only [codegenEmitStatement]
    exact cgExtends_emitExpression _ st0 st h
  | literal lit =>
    simp only [codegenEmitStatement]
    exact cgExtends_emitExpression _ st0 st h
  | binary op bty left right =>
    simp only [codegenEmitStatement]
    exact cgExtends_emitExpression _ st0 st h
  | unary op operand =>
    simp only [codegenEmitStatement]
    exact cgExtends_emitExpression _ st0 st h
  | call callee args =>
    simp only [codegenEmitStatement]
    exact cgExtends_emitExpression _ st0 st h
  | identifier name offset isLocal =>
    simp only [codegenEmitStatement]
    exact cgExtends_emitExpression _ st0 st h
termination_by 2 * sizeOf node + 1

theorem cgExtends_emitStmtList (l : List (Option AstNode))
    (st0 st : CGState) (h : cgExtends st0 st) :
    cgExtends st0 (codegenEmitStmtList l st) := by
  cases l with
  | nil => simp only [codegenEmitStmtList]; exact h
  | cons a rest =>
    cases a with
    | none =>
      simp only [codegenEmitStmtList]
      exact cgExtends_emitStmtList rest st0 st h
    | some s =>
      simp only [codegenEmitStmtList]
      exact cgExtends_emitStmtList rest st0 _
        (cgExtends_emitStatement s st0 st h)
termination_by 2 * sizeOf l

theorem cgExtends_emitExpression (node : AstNode) (st0 st : CGState)
    (h : cgExtends st0 st) :
    cgExtends st0 (codegenEmitExpression node st) := by
  cases node with
  | literal lit =>
    simp only [codegenEmitExpression]
    exact cgExtends_emitLiteral h lit
  | binary op bty left right =>
    simp only [codegenEmitExpression]
    exact cgExtends_emitBinary op bty left right st0 st h
  | unary op operand =>
    simp only [codegenEmitExpression]
    exact cgExtends_emitUnary op operand st0 st h
  | call callee args =>
    simp only [codegenEmitExpression]
    exact cgExtends_emitCall callee args st0 st h
  | identifier name offset isLocal =>
    simp only [codegenEmitExpression]
    exact cgExtends_emitVariable h name offset isLocal
  | program decls => simp only [codegenEmitExpression]; exact h
  | functionDecl a b c d => simp only [codegenEmitExpression]; exact h
  | block stmts => simp only [codegenEmitExpression]; exact h
  | ifStmt a b c => simp only [codegenEmitExpression]; exact h
  | whileStmt a b => simp only [codegenEmitExpression]; exact h
  | returnStmt a => simp only [codegenEmitExpression]; exact h
termination_by 2 * sizeOf node

theorem cgExtends_emitExprOpt (node : Option AstNode) (st0 st : CGState)
    (h : cgExtends st0 st) : cgExtends st0 (codegenEmitExprOpt node st) := by
  cases node with
  | none => simp only [codegenEmitExprOpt]; exact h
  | some n =>
    simp only [codegenEmitExprOpt]
    exact cgExtends_emitExpression n st0 st h
termination_by 2 * sizeOf node

theorem cgExtends_emitBinary (op : TokenType) (bty : TypeKind)
    (left right : Option AstNode) (st0 st : CGState) (h : cgExtends st0 st) :
    cgExtends st0 (codegenEmitBinary op bty left right st) := by
  have h4 := cgExtends_emitLine (cgExtends_emitExprOpt left st0 _
    (cgExtends_emitLine (cgExtends_emitExprOpt right st0 st h)
      "    push rax")) "    pop rbx"
  cases op <;> simp only [codegenEmitBinary] <;>
    first
    | exact h4
    | (split <;> exact cgExtends_emitLines h4 _)
termination_by 2 * (sizeOf left + sizeOf right) + 1

theorem cgExtends_emitUnary (op : TokenType) (operand : Option AstNode)
    (st0 st : CGState) (h : cgExtends st0 st) :
    cgExtends st0 (codegenEmitUnary op operand st) := by
  have h1 := cgExtends_emitExprOpt operand st0 st h
  cases op <;> simp only [codegenEmitUnary] <;>
    first
    | exact h1
    | exact cgExtends_emitLines h1 _
termination_by 2 * sizeOf operand + 1

theorem cgExtends_emitCall (callee : Option AstNode)
    (args : Option (List (Option AstNode))) (st0 st : CGState)
    (h : cgExtends st0 st) : cgExtends st0 (codegenEmitCall callee args st) := by
  cases args with
  | none =>
    simp only [codegenEmitCall]
    exact cgExtends_emitLine (cgExtends_emitExprOpt callee st0 st h) _
  | some l =>
    simp only [codegenEmitCall]
    exact cgExtends_emitLine (cgExtends_emitLine (cgExtends_emitExprOpt
      callee st0 _ (cgExtends_emitArgsRev l st0 st h)) _) _
termination_by 2 * (sizeOf callee + sizeOf args) + 1

theorem cgExtends_emitArgsRev (l : List (Option AstNode)) (st0 st : CGState)
    (h : cgExtends st0 st) : cgExtends st0 (codegenEmitArgsRev l st) := by
  cases l with
  | nil => simp only [codegenEmitArgsRev]; exact h
  | cons a rest =>
    simp only [codegenEmitArgsRev]
    exact cgExtends_emitLine (cgExtends_emitExprOpt a st0 _
      (cgExtends_emitArgsRev rest st0 st h)) _
termination_by 2 * sizeOf l

end

theorem string_append_left_cancel {a b c : String} (h : a ++ b = a ++ c) :
    b = c := by
  apply String.ext
  have hd := congrArg String.data h
  simp only [String.data_append] at hd
  exact List.append_cancel_left hd

theorem labelName_injective : Function.Injective labelName := by
  intro m n h
  exact decRepr_injective (string_append_left_cancel h)

theorem labelInv_emitFunction (node : AstNode) (st : CGState)
    (h : labelInv st) : labelInv (codegenEmitFunction node st) := by
  cases node with
  | functionDecl name localSize params body =>
    cases name with
    | none => simp only [codegenEmitFunction]; exact h
    | some nm =>
      cases params <;> cases body <;> simp only [codegenEmitFunction] <;>
        first
        | (split <;> exact h)
        | exact labelInv_emitStatement _ _ (by split <;> exact h)
  | program decls => simp only [codegenEmitFunction]; exact h
  | block stmts => simp only [codegenEmitFunction]; exact h
  | ifStmt a b c => simp only [codegenEmitFunction]; exact h
  | whileStmt a b => simp only [codegenEmitFunction]; exact h
  | returnStmt a => simp only [codegenEmitFunction]; exact h
  | literal lit => simp only [codegenEmitFunction]; exact h
  | binary a b c d => simp only [codegenEmitFunction]; exact h
  | unary a b => simp only [codegenEmitFunction]; exact h
  | call a b => simp only [codegenEmitFunction]; exact h
  | identifier a b c => simp only [codegenEmitFunction]; exact h

theorem labelInv_emitFunctionList (l : List AstNode) (st : CGState)
    (h : labelInv st) : labelInv (codegenEmitFunctionList l st) := by
  induction l generalizing st with
  | nil => simp only [codegenEmitFunctionList]; exact h
  | cons d rest ih =>
    simp only [codegenEmitFunctionList]
    cases d <;>
      exact ih _ (by first | exact labelInv_emitFunction _ _ h | exact h)

theorem out_decomp_of_extends {stH : CGState} {marshal : List String}
    {stFinal : CGState}
    (hext : cgExtends (emitLines stH marshal) stFinal) :
    ∃ pre post, stFinal.out = pre ++ marshal ++ post := by
  obtain ⟨t, ht⟩ := hext
  refine ⟨stH.out, t, ?_⟩
  rw [ht]
  simp [emitLines, List.append_assoc]

/-- C6.  Within one compilation (a run of `codegen_generate` from a
fresh context), the labels allocated by `codegen_new_label` are exactly
`L0, L1, ...` in order of a single monotonically increasing counter, and
they are pairwise distinct: no label is reused anywhere in the output,
across functions or across if/while constructs. -/
theorem claim_C6 (ast : AstNode) :
    (codegenGenerate ast codegenCreate).2.allocated =
      (List.range (codegenGenerate ast codegenCreate).2.labelCounter).map
        labelName ∧
    (codegenGenerate ast codegenCreate).2.allocated.Nodup := by
  have h0 : labelInv codegenCreate := by
    simp [labelInv, codegenCreate]
  have hfin : labelInv (codegenGenerate ast codegenCreate).2 := by
    cases ast with
    | program decls =>
      cases decls with
      | none => simp only [codegenGenerate]; exact h0
      | some ds =>
        simp only [codegenGenerate]
        exact labelInv_emitFunctionList ds _ h0
    | functionDecl a b c d => simp only [codegenGenerate]; exact h0
    | block a => simp only [codegenGenerate]; exact h0
    | ifStmt a b c => simp only [codegenGenerate]; exact h0
    | whileStmt a b => simp only [codegenGenerate]; exact h0
    | returnStmt a => simp only [codegenGenerate]; exact h0
    | literal a => simp only [codegenGenerate]; exact h0
    | binary a b c d => simp only [codegenGenerate]; exact h0
    | unary a b => simp only [codegenGenerate]; exact h0
    | call a b => simp only [codegenGenerate]; exact h0
    | identifier a b c => simp only [codegenGenerate]; exact h0
  refine ⟨hfin, ?_⟩
  rw [hfin]
  exact (List.nodup_range _).map labelName_injective


/-- C7.  The prologue of a generated function contains the parameter
marshaling block: each of the first six identifier parameters is stored
into its local slot from the argument registers
`rdi, rsi, rdx, rcx, r8, r9` in that order, and every parameter with
index `i ≥ 6` is loaded from the caller's frame at offset
`rbp + 16 + (i-6)*8` (saved frame pointer plus return address) and
stored into its local slot. -/
theorem claim_C7 (nm : String) (localSize : Nat)
    (params : List (Option AstNode)) (body : Option AstNode) (st : CGState)
    (i off : Nat) (pname : String) (ploc : Bool)
    (hp : params[i]? = some (some (.identifier pname off ploc))) :
    (∃ pre post,
      (codegenEmitFunction
        (.functionDecl (some nm) localSize (some params) body) st).out =
        pre ++ marshalLines params ++ post) ∧
    (i < 6 →
      ("    mov [rbp - " ++ decRepr off ++ "], " ++
          (["rdi", "rsi", "rdx", "rcx", "r8", "r9"].getD i "")) ∈
        (codegenEmitFunction
          (.functionDecl (some nm) localSize (some params) body) st).out) ∧
    (6 ≤ i →
      ("    mov rax, [rbp + " ++ decRepr (16 + (i - 6) * 8) ++ "]") ∈
        (codegenEmitFunction
          (.functionDecl (some nm) localSize (some params) body) st).out ∧
      ("    mov [rbp - " ++ decRepr off ++ "], rax") ∈
        (codegenEmitFunction
          (.functionDecl (some nm) localSize (some params) body) st).out) := by
  have hdec : ∃ pre post,
      (codegenEmitFunction
        (.functionDecl (some nm) localSize (some params) body) st).out =
        pre ++ marshalLines params ++ post := by
    cases body with
    | none =>
      simp only [codegenEmitFunction]
      exact out_decomp_of_extends (cgExtends_emitLines (cgExtends_refl _) _)
    | some b =>
      simp only [codegenEmitFunction]
      exact out_decomp_of_extends (cgExtends_emitLines
        (cgExtends_emitStatement b _ _ (cgExtends_refl _)) _)
  have henum : (i, some (AstNode.identifier pname off ploc)) ∈
      params.enum := by
    rw [List.mk_mem_enum_iff_getElem?]
    exact hp
  have hmar : ∀ line ∈ marshalParam i
      (some (.identifier pname off ploc)), line ∈ marshalLines params := by
    intro line hline
    exact List.mem_flatMap.mpr ⟨_, henum, hline⟩
  have hout : ∀ line ∈ marshalParam i
      (some (.identifier pname off ploc)),
      line ∈ (codegenEmitFunction
        (.functionDecl (some nm) localSize (some params) body) st).out := by
    intro line hline
    obtain ⟨pre, post, heq⟩ := hdec
    rw [heq]
    simp only [List.mem_append]
    exact Or.inl (Or.inr (hmar line hline))
  refine ⟨hdec, ?_, ?_⟩
  · intro hlt
    apply hout
    simp [marshalParam, hlt, argRegs]
  · intro hge
    have hnlt : ¬ i < 6 := by omega
    constructor
    · apply hout
      simp [marshalParam, hnlt]
    · apply hout
      simp [marshalParam, hnlt]

/-- C7, witness: in a seven-parameter function, parameter 0 is marshaled
from `rdi` into `[rbp - 8]`, and parameter 6 is loaded from
`[rbp + 16 + 0*8]`; all hypotheses of the theorem are discharged at this
concrete declaration. -/
theorem claim_C7_witness :
    ("    mov [rbp - " ++ decRepr 8 ++ "], " ++
        (["rdi", "rsi", "rdx", "rcx", "r8", "r9"].getD 0 "")) ∈
      (codegenEmitFunction
        (.functionDecl (some "f") 0 (some demoParams7) none)
        codegenCreate).out ∧
    ("    mov rax, [rbp + " ++ decRepr (16 + (6 - 6) * 8) ++ "]") ∈
      (codegenEmitFunction
        (.functionDecl (some "f") 0 (some demoParams7) none)
        codegenCreate).out := by
  constructor
  · exact (claim_C7 "f" 0 demoParams7 none codegenCreate 0 8 "p0" true
      (by rfl)).2.1 (by decide)
  · exact ((claim_C7 "f" 0 demoParams7 none codegenCreate 6 56 "p6" true
      (by rfl)).2.2 (by decide)).1

end Slang
